import Mathlib

/-! # Verification of the Ralph Lauren ESG text-mining pipeline

A shallow embedding of the three-stage pipeline
(02_pdf_text_extractor.py / 03_esg_data_extractor.py /
04_quantitative_analysis_visualization.py), restricted to the ASCII
fragment the corpus uses.  Text is modelled as `List Char`; each Python
regex used by the pipeline is embedded as an executable matcher that
mirrors CPython's leftmost, greedy, non-overlapping `finditer` semantics
on the exact pattern the source defines.  All scanning functions take an
explicit fuel argument (instantiated with the input length) so that every
definition reduces inside the kernel.
-/

set_option maxRecDepth 8000

namespace RL

/-- ASCII whitespace, the characters Python's str.split and regex \s
recognise in the ASCII range. -/
def isWSChar (c : Char) : Bool :=
  c == ' ' || c == '\t' || c == '\n' || c == '\r' || c == '\x0b' || c == '\x0c'

/-- ASCII digit. -/
def isDigitC (c : Char) : Bool :=
  '0' ≤ c && c ≤ '9'

/-- ASCII word character, the \w class used by regex word boundaries:
a letter, a digit, or an underscore. -/
def isWordC (c : Char) : Bool :=
  c.isAlpha || isDigitC c || c == '_'

/-- Lower-case a string, modelling Python str.lower on ASCII text. -/
def lowerL (s : List Char) : List Char :=
  s.map Char.toLower

/-- pat is a leading segment of s. -/
def leadsWith : List Char → List Char → Bool
  | [], _ => true
  | _ :: _, [] => false
  | p :: ps, c :: cs => p == c && leadsWith ps cs

/-- Case-insensitive variant of leadsWith (regex IGNORECASE). -/
def leadsWithCI (pat s : List Char) : Bool :=
  leadsWith (lowerL pat) (lowerL s)

/-- pat occurs somewhere inside s (Python's in operator on str). -/
def containsSub : List Char → List Char → Bool
  | pat, [] => leadsWith pat []
  | pat, c :: cs => leadsWith pat (c :: cs) || containsSub pat cs

/-- Python slice s[a:b] for 0 ≤ a ≤ b, with the usual clamping. -/
def sliceCL (s : List Char) (a b : Nat) : List Char :=
  (s.take b).drop a

/-- Python str.strip(): remove leading and trailing whitespace. -/
def stripWS (s : List Char) : List Char :=
  ((s.dropWhile isWSChar).reverse.dropWhile isWSChar).reverse

/-- Accumulator pass behind splitWS; acc holds the current word reversed. -/
def splitWSAux : List Char → List Char → List (List Char)
  | [], acc => if acc.isEmpty then [] else [acc.reverse]
  | c :: cs, acc =>
    if isWSChar c then
      if acc.isEmpty then splitWSAux cs [] else acc.reverse :: splitWSAux cs []
    else splitWSAux cs (c :: acc)

/-- Python str.split() with no argument: maximal runs of non-whitespace. -/
def splitWS (s : List Char) : List (List Char) :=
  splitWSAux s []

/-- Join words with single spaces, modelling ' '.join. -/
def joinSp : List (List Char) → List Char
  | [] => []
  | [w] => w
  | w :: ws => w ++ ' ' :: joinSp ws

/-- The pipeline's whitespace normalisation ' '.join(s.split()). -/
def collapseWS (s : List Char) : List Char :=
  joinSp (splitWS s)

/-- Join strings with ", ", modelling ', '.join; the empty list gives the
empty string, matching the source's if xs else '' guard. -/
def joinComma : List (List Char) → List Char
  | [] => []
  | [w] => w
  | w :: ws => w ++ ',' :: ' ' :: joinComma ws

/-- Leftmost non-overlapping scan: at each position try the matcher; on a
match of length len record the span and resume after it, otherwise move
one character forward.  Fuel bounds the recursion and is always
instantiated with the input length, which suffices because every step
consumes at least one character. -/
def scanAux (m : List Char → Option Nat) : Nat → Nat → List Char → List (Nat × Nat)
  | 0, _, _ => []
  | _ + 1, _, [] => []
  | f + 1, pos, c :: cs =>
    match m (c :: cs) with
    | some len =>
        (pos, pos + len) :: scanAux m f (pos + max len 1) ((c :: cs).drop (max len 1))
    | none => scanAux m f (pos + 1) cs

/-- re.finditer: the spans of all leftmost non-overlapping matches. -/
def findIter (m : List Char → Option Nat) (s : List Char) : List (Nat × Nat) :=
  scanAux m s.length 0 s

/-- Scan collecting a payload from each match (re.findall with a group). -/
def scanP (m : List Char → Option (Nat × List Char)) : Nat → List Char → List (List Char)
  | 0, _ => []
  | _ + 1, [] => []
  | f + 1, c :: cs =>
    match m (c :: cs) with
    | some (len, g) => g :: scanP m f ((c :: cs).drop (max len 1))
    | none => scanP m f cs

/-- First match only (re.search), returning its span. -/
def searchLen (m : List Char → Option Nat) : Nat → Nat → List Char → Option (Nat × Nat)
  | 0, _, _ => none
  | _ + 1, _, [] => none
  | f + 1, pos, c :: cs =>
    match m (c :: cs) with
    | some len => some (pos, pos + len)
    | none => searchLen m f (pos + 1) cs

/-- re.search over a whole string. -/
def searchFirst (m : List Char → Option Nat) (s : List Char) : Option (Nat × Nat) :=
  searchLen m s.length 0 s

/-! ## The stage-2 pattern sets (define_patterns) -/

/-- Number of leading digit characters. -/
def digitSpan (s : List Char) : Nat :=
  (s.takeWhile isDigitC).length

/-- Tail of the pattern reduce.*by \d+% after the dot-star: the literal
"by " (case-insensitively), one or more digits, then a percent sign. -/
def byPctTail (s : List Char) : Option Nat :=
  if leadsWithCI ("by ".toList) s then
    let r := s.drop 3
    let d := digitSpan r
    if 0 < d && leadsWith ['%'] (r.drop d) then some (3 + d + 1) else none
  else none

/-- Tail of achieve.*by \d{4} / reach.*by \d{4}: "by " then four digits. -/
def byYearTail (s : List Char) : Option Nat :=
  if leadsWithCI ("by ".toList) s then
    if 4 ≤ digitSpan (s.drop 3) then some 7 else none
  else none

/-- Greedy dot-star: the longest stretch of non-newline characters after
which the tail matcher succeeds, as a backtracking regex resolves .*X. -/
def tryDown (tailM : List Char → Option Nat) (r : List Char) : Nat → Option (Nat × Nat)
  | 0 => (tailM r).map (fun t => (0, t))
  | j + 1 =>
    match tailM (r.drop (j + 1)) with
    | some t => some (j + 1, t)
    | none => tryDown tailM r j

/-- Total length consumed by .* followed by the tail matcher. -/
def dotStar (tailM : List Char → Option Nat) (r : List Char) : Option Nat :=
  (tryDown tailM r (r.takeWhile (· != '\n')).length).map (fun p => p.1 + p.2)

/-- The eleven entries of self.target_keywords, as an inductive mirror of
the regex list. -/
inductive TPat
  | lit (w : List Char)
  | reduceByPct
  | achieveByYear
  | reachByYear
  | pctReduction
deriving DecidableEq

/-- Matcher for one target keyword pattern at the head of s, with the
IGNORECASE flag the source passes to finditer. -/
def tpatM : TPat → List Char → Option Nat
  | .lit w, s => if leadsWithCI w s then some w.length else none
  | .reduceByPct, s =>
    if leadsWithCI ("reduce".toList) s then
      (dotStar byPctTail (s.drop 6)).map (6 + ·)
    else none
  | .achieveByYear, s =>
    if leadsWithCI ("achieve".toList) s then
      (dotStar byYearTail (s.drop 7)).map (7 + ·)
    else none
  | .reachByYear, s =>
    if leadsWithCI ("reach".toList) s then
      (dotStar byYearTail (s.drop 5)).map (5 + ·)
    else none
  | .pctReduction, s =>
    let d := digitSpan s
    if 0 < d && leadsWithCI ("% reduction".toList) (s.drop d) then
      some (d + 11)
    else none

/-- self.target_keywords, in source order. -/
def target_keywords : List TPat :=
  [ .lit ("target".toList), .lit ("goal".toList), .lit ("objective".toList),
    .lit ("aim to".toList), .reduceByPct, .achieveByYear, .reachByYear,
    .pctReduction, .lit ("net zero".toList), .lit ("carbon neutral".toList),
    .lit ("science-based target".toList) ]

/-- self.commitment_strong. -/
def commitment_strong : List (List Char) :=
  [ "committed to".toList, "will achieve".toList, "will reduce".toList,
    "will reach".toList, "pledge to".toList, "determined to".toList,
    "dedicated to".toList, "have committed".toList ]

/-- self.commitment_moderate. -/
def commitment_moderate : List (List Char) :=
  [ "plan to".toList, "intend to".toList, "aim to".toList, "working to".toList,
    "seeking to".toList, "strive to".toList, "expect to".toList,
    "focused on".toList ]

/-- self.commitment_weak. -/
def commitment_weak : List (List Char) :=
  [ "aspire to".toList, "hope to".toList, "may".toList, "could".toList,
    "exploring".toList, "considering".toList, "evaluating".toList,
    "subject to".toList, "dependent on".toList ]

/-- Digit or comma, the class [\d,] of the currency pattern. -/
def isDigitComma (c : Char) : Bool :=
  isDigitC c || c == ','

/-- Number of leading digit-or-comma characters. -/
def digitCommaSpan (s : List Char) : Nat :=
  (s.takeWhile isDigitComma).length

/-- Case-sensitive literal matcher at the head of a string (re.escape of a
plain keyword with no flags). -/
def litM (pat s : List Char) : Option Nat :=
  if leadsWith pat s then some pat.length else none

/-- The alternation (million|billion|M|B)? of the currency pattern, tried
in source order, with the empty alternative as fallback. -/
def unitAlt (s : List Char) : Nat :=
  if leadsWith ("million".toList) s then 7
  else if leadsWith ("billion".toList) s then 7
  else if leadsWith ['M'] s then 1
  else if leadsWith ['B'] s then 1
  else 0

/-- numeric_patterns['currency']: \$\s*([\d,]+(?:\.\d+)?)\s*(million|billion|M|B)?
as used case-sensitively by re.search in extract_initiatives. -/
def currencyM (s : List Char) : Option Nat :=
  match s with
  | '$' :: r0 =>
    let w1 := (r0.takeWhile isWSChar).length
    let r1 := r0.drop w1
    let d1 := r1.takeWhile isDigitComma
    if d1.isEmpty then none else
      let r2 := r1.drop d1.length
      let p :=
        match r2 with
        | '.' :: r2t =>
          let d2 := r2t.takeWhile isDigitC
          if d2.isEmpty then ((0 : Nat), r2) else (1 + d2.length, r2t.drop d2.length)
        | _ => ((0 : Nat), r2)
      let w2 := (p.2.takeWhile isWSChar).length
      let u := unitAlt (p.2.drop w2)
      some (1 + w1 + d1.length + p.1 + w2 + u)
  | _ => none

/-- numeric_patterns['percentage']: (\d+(?:\.\d+)?)\s*% with its group,
resolved by maximal munch, which coincides with the backtracking search
because a shorter digit run is always followed by another digit. -/
def percM (s : List Char) : Option (Nat × List Char) :=
  let d1 := s.takeWhile isDigitC
  if d1.isEmpty then none else
    let r1 := s.drop d1.length
    let p :=
      match r1 with
      | '.' :: r1t =>
        let d2 := r1t.takeWhile isDigitC
        if d2.isEmpty then (d1, r1) else (d1 ++ '.' :: d2, r1t.drop d2.length)
      | _ => (d1, r1)
    let w := (p.2.takeWhile isWSChar).length
    if leadsWith ['%'] (p.2.drop w) then
      some (p.1.length + w + 1, p.1)
    else none

/-- re.findall of the percentage pattern, keeping each group. -/
def findAllPerc (s : List Char) : List (List Char) :=
  scanP percM s.length s

/-- A word boundary holds before the current position given the previous
character (none at the start of the string). -/
def boundaryOkC : Option Char → Bool
  | none => true
  | some c => !isWordC c

/-- A word boundary holds after a word character given what follows. -/
def headNotWord : List Char → Bool
  | [] => true
  | c :: _ => !isWordC c

/-- Match of numeric_patterns['year'] = \b(20\d{2})\b at the head of the
string, given the previous character for the left boundary. -/
def matchYearAt (prev : Option Char) : List Char → Option (Char × Char × List Char)
  | c1 :: c2 :: d1 :: d2 :: rest =>
    if c1 = '2' ∧ c2 = '0' ∧ boundaryOkC prev = true ∧ isDigitC d1 = true ∧
        isDigitC d2 = true ∧ headNotWord rest = true then
      some (d1, d2, rest)
    else none
  | _ => none

/-- re.findall of the year pattern: leftmost non-overlapping scan that
carries the previous character for the left word boundary. -/
def yearScan : Nat → Option Char → List Char → List (List Char)
  | 0, _, _ => []
  | _ + 1, _, [] => []
  | f + 1, prev, c :: cs =>
    match matchYearAt prev (c :: cs) with
    | some (d1, d2, rest) => ['2', '0', d1, d2] :: yearScan f (some d2) rest
    | none => yearScan f (some c) cs

/-- All year-pattern groups found in s, in order. -/
def findAllYears (s : List Char) : List (List Char) :=
  yearScan s.length none s

/-- The entries of self.initiative_keywords: literal keywords plus the
shaped pattern invested \$[\d,]+. -/
inductive IPat
  | lit (w : List Char)
  | investedAmt
deriving DecidableEq

/-- Matcher for one initiative pattern (finditer runs with IGNORECASE). -/
def ipatM : IPat → List Char → Option Nat
  | .lit w, s => if leadsWithCI w s then some w.length else none
  | .investedAmt, s =>
    if leadsWithCI ("invested $".toList) s then
      let d := digitCommaSpan (s.drop 10)
      if 0 < d then some (10 + d) else none
    else none

/-- self.initiative_keywords, in source order. -/
def initiative_keywords : List IPat :=
  [ .lit ("program".toList), .lit ("initiative".toList),
    .lit ("partnership".toList), .lit ("collaboration".toList),
    .lit ("launched".toList), .lit ("announced".toList),
    .lit ("introduced".toList), .lit ("implemented".toList),
    .investedAmt, .lit ("investment of".toList),
    .lit ("million".toList), .lit ("billion".toList) ]

/-- self.impact_keywords: the ten fixed areas with their keyword lists. -/
def impact_keywords : List (List Char × List (List Char)) :=
  [ ("Climate/Carbon".toList,
      [ "emission".toList, "carbon".toList, "greenhouse gas".toList,
        "GHG".toList, "CO2".toList, "climate".toList, "scope 1".toList,
        "scope 2".toList, "scope 3".toList, "carbon footprint".toList ]),
    ("Water".toList,
      [ "water".toList, "H2O".toList, "water use".toList,
        "water consumption".toList, "water stewardship".toList,
        "water stress".toList, "water efficiency".toList ]),
    ("Waste/Circular Economy".toList,
      [ "waste".toList, "recycl".toList, "circular".toList,
        "zero waste".toList, "landfill".toList, "reuse".toList,
        "repurpose".toList, "end-of-life".toList ]),
    ("Energy".toList,
      [ "energy".toList, "renewable energy".toList, "solar".toList,
        "wind".toList, "renewable".toList, "energy efficiency".toList,
        "electricity".toList ]),
    ("Materials".toList,
      [ "sustainable material".toList, "organic cotton".toList,
        "recycled polyester".toList, "preferred fiber".toList,
        "sustainable sourcing".toList, "material innovation".toList ]),
    ("Supply Chain".toList,
      [ "supplier".toList, "supply chain".toList, "factory".toList,
        "manufacturing".toList, "vendor".toList, "sourcing".toList ]),
    ("Human Rights/Labor".toList,
      [ "human rights".toList, "labor".toList, "worker".toList,
        "fair wage".toList, "working conditions".toList,
        "child labor".toList, "forced labor".toList ]),
    ("Diversity/Equity".toList,
      [ "diversity".toList, "equity".toList, "inclusion".toList,
        "DEI".toList, "gender".toList, "racial".toList,
        "equal opportunity".toList, "representation".toList ]),
    ("Biodiversity".toList,
      [ "biodiversity".toList, "ecosystem".toList, "nature".toList,
        "forest".toList, "deforestation".toList, "land use".toList,
        "habitat".toList ]),
    ("Governance".toList,
      [ "governance".toList, "board".toList, "oversight".toList,
        "policy".toList, "compliance".toList, "ethics".toList,
        "transparency".toList, "disclosure".toList ]) ]

/-! ## Stage-2 data model and extraction passes -/

/-- Header metadata of one extracted text file; each field is present only
when the corresponding header search matched. -/
structure Metadata where
  source_file : Option (List Char)
  year : Option (List Char)
  document_type : Option (List Char)
deriving DecidableEq

/-- One entry of the structured page list built by parse_text_file. -/
structure PageData where
  page_number : Nat
  total_pages : Nat
  text : List Char
deriving DecidableEq

/-- One row of extracted_targets_goals.csv. -/
structure TargetRecord where
  year : List Char
  document : List Char
  source_file : List Char
  page_number : Nat
  target_text : List Char
  percentages : List Char
  target_years : List Char
  keyword_matched : List Char
deriving DecidableEq

/-- One row of extracted_language_patterns.csv. -/
structure LanguageRecord where
  year : List Char
  document : List Char
  page_number : Nat
  commitment_strength : List Char
  phrase : List Char
  context : List Char
deriving DecidableEq

/-- One row of extracted_initiatives.csv. -/
structure InitiativeRecord where
  year : List Char
  document : List Char
  page_number : Nat
  initiative_text : List Char
  keyword_matched : List Char
  investment_amount : List Char
deriving DecidableEq

/-- One row of extracted_impact_areas.csv. -/
structure ImpactRecord where
  year : List Char
  document : List Char
  page_number : Nat
  impact_area : List Char
  keyword : List Char
  occurrence_count : Nat
  example_context : List Char
deriving DecidableEq

/-- metadata.get('year', 'Unknown'). -/
def yearField (md : Metadata) : List Char :=
  md.year.getD ("Unknown".toList)

/-- metadata.get('document_type', 'Unknown'). -/
def documentField (md : Metadata) : List Char :=
  md.document_type.getD ("Unknown".toList)

/-- metadata.get('source_file', 'Unknown'). -/
def sourceField (md : Metadata) : List Char :=
  md.source_file.getD ("Unknown".toList)

/-- One target match on a page together with the intermediate values the
loop body of extract_targets_and_goals computes for it: the collapsed
±200-character window and the percentage and year groups found in it. -/
structure TargetHit where
  mstart : Nat
  mend : Nat
  context : List Char
  pcts : List (List Char)
  yrs : List (List Char)
deriving DecidableEq

/-- The target-keyword matches of one page with their windows: for every
pattern of target_keywords in order, every finditer match, the stripped
then whitespace-collapsed window text[start-200 : end+200], and the
percentage and year groups regex-extracted from that window. -/
def targetHitsPage (pg : PageData) : List TargetHit :=
  target_keywords.flatMap fun pat =>
    (findIter (tpatM pat) pg.text).map fun m =>
      let context := collapseWS (stripWS (sliceCL pg.text (m.1 - 200) (m.2 + 200)))
      { mstart := m.1, mend := m.2, context := context,
        pcts := findAllPerc context, yrs := findAllYears context }

/-- The target_entry dict built for one hit. -/
def mkTargetRec (md : Metadata) (pg : PageData) (h : TargetHit) : TargetRecord :=
  { year := yearField md,
    document := documentField md,
    source_file := sourceField md,
    page_number := pg.page_number,
    target_text := h.context.take 300,
    percentages := joinComma h.pcts,
    target_years := joinComma h.yrs,
    keyword_matched := sliceCL pg.text h.mstart h.mend }

/-- The target records one page contributes. -/
def extractTargetsPage (md : Metadata) (pg : PageData) : List TargetRecord :=
  (targetHitsPage pg).map (mkTargetRec md pg)

/-- extract_targets_and_goals: one TargetRecord per target-keyword match
per page, appended in page order then pattern order then match order. -/
def extract_targets_and_goals (pages : List PageData) (md : Metadata) : List TargetRecord :=
  pages.flatMap (extractTargetsPage md)

/-- One strength group of extract_language_patterns: for each phrase of
the list, if it occurs in the lowered page text, one record per
case-insensitive finditer match with a ±150 window capped at 250. -/
def langRecordsFor (md : Metadata) (pg : PageData) (strength : List Char)
    (phrases : List (List Char)) : List LanguageRecord :=
  phrases.flatMap fun ph =>
    if containsSub ph (lowerL pg.text) then
      (findIter (fun s => if leadsWithCI ph s then some ph.length else none) pg.text).map
        fun m =>
          { year := yearField md,
            document := documentField md,
            page_number := pg.page_number,
            commitment_strength := strength,
            phrase := sliceCL pg.text m.1 m.2,
            context := (collapseWS (sliceCL pg.text (m.1 - 150) (m.2 + 150))).take 250 }
    else []

/-- The language records one page contributes: its strong, moderate and
weak groups in source order. -/
def extractLanguagePage (md : Metadata) (pg : PageData) : List LanguageRecord :=
  langRecordsFor md pg ("Strong".toList) commitment_strong ++
  langRecordsFor md pg ("Moderate".toList) commitment_moderate ++
  langRecordsFor md pg ("Weak/Hedging".toList) commitment_weak

/-- extract_language_patterns. -/
def extract_language_patterns (pages : List PageData) (md : Metadata) : List LanguageRecord :=
  pages.flatMap (extractLanguagePage md)

/-- extract_initiatives: one record per initiative-keyword match per page,
with the first currency match inside the collapsed window, if any, kept
as investment_amount. -/
def extractInitiativesPage (md : Metadata) (pg : PageData) : List InitiativeRecord :=
  initiative_keywords.flatMap fun pat =>
    (findIter (ipatM pat) pg.text).map fun m =>
      let context := collapseWS (sliceCL pg.text (m.1 - 200) (m.2 + 200))
      let inv :=
        match searchFirst currencyM context with
        | some sp => sliceCL context sp.1 sp.2
        | none => []
      { year := yearField md,
        document := documentField md,
        page_number := pg.page_number,
        initiative_text := context.take 300,
        keyword_matched := sliceCL pg.text m.1 m.2,
        investment_amount := inv }

/-- extract_initiatives. -/
def extract_initiatives (pages : List PageData) (md : Metadata) : List InitiativeRecord :=
  pages.flatMap (extractInitiativesPage md)

/-- The record extract_impact_areas appends for one (area, keyword). -/
def mkImpactRec (md : Metadata) (pg : PageData) (area kw : List Char)
    (cnt : Nat) (ctx : List Char) : ImpactRecord :=
  { year := yearField md, document := documentField md,
    page_number := pg.page_number, impact_area := area, keyword := kw,
    occurrence_count := cnt, example_context := ctx }

/-- The impact records one page contributes: the page text is lowered
once; for every area and keyword with at least one match, exactly one
record carrying the number of matches and a ±100 window around the
first match, capped at 200 characters. -/
def extractImpactPage (md : Metadata) (pg : PageData) : List ImpactRecord :=
  let text := lowerL pg.text
  impact_keywords.flatMap fun ak =>
    ak.2.filterMap fun kw =>
      match findIter (litM (lowerL kw)) text with
      | [] => none
      | m :: ms =>
        some (mkImpactRec md pg ak.1 kw (m :: ms).length
          ((collapseWS (sliceCL text (m.1 - 100) (m.2 + 100))).take 200))

/-- extract_impact_areas. -/
def extract_impact_areas (pages : List PageData) (md : Metadata) : List ImpactRecord :=
  pages.flatMap (extractImpactPage md)

/-! ## Stage-2 driver, in-memory collections and statistics -/

/-- The four in-memory collections of ESGDataExtractor. -/
structure ExtractState where
  targets_data : List TargetRecord
  language_data : List LanguageRecord
  initiatives_data : List InitiativeRecord
  impact_areas_data : List ImpactRecord
deriving DecidableEq

/-- The collections start empty. -/
def emptyState : ExtractState :=
  ⟨[], [], [], []⟩

/-- Run the four extraction passes of one successfully parsed file,
appending to the collections as the source's append calls do. -/
def processOne (st : ExtractState) (md : Metadata) (pages : List PageData) : ExtractState :=
  { targets_data := st.targets_data ++ extract_targets_and_goals pages md,
    language_data := st.language_data ++ extract_language_patterns pages md,
    initiatives_data := st.initiatives_data ++ extract_initiatives pages md,
    impact_areas_data := st.impact_areas_data ++ extract_impact_areas pages md }

/-- One input file as the stage-2 loop sees it: either the metadata and
pages returned by parse_text_file, or the error it raised.  Reading and
parsing a file completes before the first extraction pass appends any
record, and the extraction passes themselves are total functions of
their arguments, so the except branch of the source leaves the
collections exactly as they were. -/
abbrev FileInput : Type :=
  Except (List Char) (Metadata × List PageData)

/-- The body of the file loop of process_all_text_files: a failed file is
logged and skipped, an ok file is extracted. -/
def processFile (st : ExtractState) : FileInput → ExtractState
  | .error _ => st
  | .ok p => processOne st p.1 p.2

/-- process_all_text_files over a directory listing. -/
def process_all_text_files (files : List FileInput) : ExtractState :=
  files.foldl processFile emptyState

/-- The four counts written to extraction_statistics.txt. -/
structure ExtractStats where
  totalTargets : Nat
  totalLanguage : Nat
  totalInitiatives : Nat
  totalImpact : Nat
deriving DecidableEq

/-- create_summary_statistics: the headline counts of the report. -/
def create_summary_statistics (st : ExtractState) : ExtractStats :=
  ⟨st.targets_data.length, st.language_data.length,
   st.initiatives_data.length, st.impact_areas_data.length⟩

/-! ## The page-delimited file format: stage-1 writer and stage-2 parser -/

/-- A line of eighty equals signs, the delimiter fence. -/
def EQS : List Char :=
  List.replicate 80 '='

/-- A line of eighty hash signs, the header fence. -/
def HSH : List Char :=
  List.replicate 80 '#'

/-- The literal "[PAGE " of the delimiter pattern. -/
def pgOpen : List Char :=
  "[PAGE ".toList

/-- The literal " OF " of the delimiter pattern. -/
def ofSep : List Char :=
  " OF ".toList

/-- Remove pat from the head of s if it leads. -/
def stripPre (pat s : List Char) : Option (List Char) :=
  if leadsWith pat s then some (s.drop pat.length) else none

/-- Remove one expected character from the head of s. -/
def stripCh (c : Char) : List Char → Option (List Char)
  | x :: r => if x == c then some r else none
  | [] => none

/-- Decimal value of a digit string (int() on the regex group). -/
def digitsToNat (d : List Char) : Nat :=
  d.foldl (fun n c => n * 10 + (c.toNat - 48)) 0

/-- The head of the list, if any, is not a digit: what is left after a
maximal digit munch. -/
def headNotDigit : List Char → Bool
  | [] => true
  | c :: _ => !isDigitC c

/-- Consume the maximal leading digit run \d+ and return its value. -/
def grabDigits (s : List Char) : Option (Nat × List Char) :=
  let d := s.takeWhile isDigitC
  if d.isEmpty then none else some (digitsToNat d, s.drop d.length)

/-- Match of the page-delimiter pattern
={80}\n\[PAGE (\d+) OF (\d+)\]\n={80} at the head of s, returning the two
group values and the remainder. -/
def matchDelimAt (s : List Char) : Option (Nat × Nat × List Char) :=
  (stripPre EQS s).bind fun s1 =>
  (stripCh '\n' s1).bind fun s2 =>
  (stripPre pgOpen s2).bind fun s3 =>
  (grabDigits s3).bind fun p1 =>
  (stripPre ofSep p1.2).bind fun s5 =>
  (grabDigits s5).bind fun p2 =>
  (stripCh ']' p2.2).bind fun s7 =>
  (stripCh '\n' s7).bind fun s8 =>
  (stripPre EQS s8).map fun s9 => (p1.1, p2.1, s9)

/-- Leftmost delimiter match: the text before it, its two groups, and the
remainder after it. -/
def findFirst : Nat → List Char → Option (List Char × Nat × Nat × List Char)
  | 0, _ => none
  | f + 1, s =>
    match matchDelimAt s with
    | some r => some ([], r)
    | none =>
      match s with
      | [] => none
      | c :: cs => (findFirst f cs).map (fun r => (c :: r.1, r.2))

/-- The re.split pieces after the first match: given the groups of the
match just consumed and the remainder, the (page, total, text) triples in
order, where each text runs to the next match or to the end. -/
def pagesRec : Nat → Nat → Nat → List Char → List (Nat × Nat × List Char)
  | 0, a, b, r => [(a, b, r)]
  | f + 1, a, b, r =>
    match findFirst r.length r with
    | none => [(a, b, r)]
    | some q => (a, b, q.1) :: pagesRec f q.2.1 q.2.2.1 q.2.2.2

/-- re.search of 'Label: (.+?)\n' on the file content: the leftmost
position where the label leads and is followed by at least one
non-newline character and then a newline; the group is stripped. -/
def searchLabel (label : List Char) : Nat → List Char → Option (List Char)
  | 0, _ => none
  | _ + 1, [] => none
  | f + 1, c :: cs =>
    (if leadsWith label (c :: cs) then
      let after := (c :: cs).drop label.length
      let grp := after.takeWhile (· != '\n')
      if grp.isEmpty || (after.drop grp.length).isEmpty then none
      else some (stripWS grp)
    else none).orElse (fun _ => searchLabel label f cs)

/-- extract_metadata_from_header. -/
def extract_metadata_from_header (content : List Char) : Metadata :=
  { source_file := searchLabel ("Source File: ".toList) content.length content,
    year := searchLabel ("Year: ".toList) content.length content,
    document_type := searchLabel ("Document Type: ".toList) content.length content }

/-- parse_text_file: the header metadata and the structured page list
obtained by splitting the content on the delimiter pattern.  With no
match re.split returns only the leading piece and the page loop yields
nothing; with matches, each match's two integer groups and the following
piece form one page entry. -/
def parse_text_file (content : List Char) : Metadata × List PageData :=
  let md := extract_metadata_from_header content
  match findFirst (content.length + 1) content with
  | none => (md, [])
  | some q =>
    (md, (pagesRec (q.2.2.2.length + 1) q.2.1 q.2.2.1 q.2.2.2).map
      (fun t => { page_number := t.1, total_pages := t.2.1, text := t.2.2 }))

/-- Decimal digits with explicit fuel; one division per unit of fuel. -/
def natCharsAux : Nat → Nat → List Char
  | 0, _ => []
  | f + 1, n =>
    if n < 10 then [Char.ofNat (48 + n)]
    else natCharsAux f (n / 10) ++ [Char.ofNat (48 + n % 10)]

/-- Decimal digits of a natural number, most significant first. -/
def natChars (n : Nat) : List Char :=
  natCharsAux (n + 1) n

/-- The fixed title line of the stage-1 header. -/
def headerTitle : List Char :=
  "RALPH LAUREN ESG ANALYSIS - EXTRACTED TEXT".toList

/-- The header block save_extracted_text writes before the first page
marker, ending in a blank line. -/
def headerChars (src yr dt date : List Char) (n : Nat) : List Char :=
  HSH ++ '\n' :: headerTitle ++ '\n' :: HSH ++ '\n' ::
  ("Source File: ".toList ++ src) ++ '\n' ::
  ("Year: ".toList ++ yr) ++ '\n' ::
  ("Document Type: ".toList ++ dt) ++ '\n' ::
  ("Total Pages: ".toList ++ natChars n) ++ '\n' ::
  ("Extraction Date: ".toList ++ date) ++ '\n' ::
  HSH ++ '\n' :: '\n' :: []

/-- The exact character sequence the delimiter regex matches for page i of
n as stage 1 writes it. -/
def delimChars (i n : Nat) : List Char :=
  EQS ++ '\n' :: (pgOpen ++ natChars i ++ ofSep ++ natChars n ++ [']']) ++ '\n' :: EQS

/-- The page_marker f-string: the delimiter with a newline on each side. -/
def markerChars (i n : Nat) : List Char :=
  '\n' :: delimChars i n ++ ['\n']

/-- The page loop of save_extracted_text: marker, page text, newline. -/
def pageBlocks (n : Nat) : Nat → List (List Char) → List Char
  | _, [] => []
  | i, t :: rest => markerChars i n ++ t ++ '\n' :: pageBlocks n (i + 1) rest

/-- save_extracted_text: the full content of the extracted text file. -/
def save_extracted_text (src yr dt date : List Char) (ts : List (List Char)) : List Char :=
  headerChars src yr dt date ts.length ++ pageBlocks ts.length 1 ts

/-! ## Stage-3 analysis models -/

/-- pd.to_numeric(year, errors='coerce') on the year column values the
pipeline produces: a non-empty all-digit string parses, anything else
(such as 'Unknown') coerces to missing. -/
def parseYearNum (s : List Char) : Option Int :=
  if s.isEmpty then none
  else if s.all isDigitC then some (digitsToNat s : Int) else none

/-- Insert into a weakly ascending list of years. -/
def insSorted (x : Int) : List Int → List Int
  | [] => [x]
  | y :: ys => if x ≤ y then x :: y :: ys else y :: insSorted x ys

/-- Insertion sort on years, modelling sort_index(). -/
def sortInts : List Int → List Int
  | [] => []
  | x :: xs => insSorted x (sortInts xs)

/-- value_counts().sort_index(): missing years are dropped, the distinct
remaining years appear in ascending order, each with its multiplicity. -/
def value_counts_sorted (ys : List Int) : List (Int × Nat) :=
  (sortInts ys.dedup).map (fun y => (y, ys.count y))

/-- One row of targets_by_year_summary.csv. -/
structure YearRow where
  year : Int
  count : Nat
  yoyChange : Option Int
  yoyPctChange : Option ℚ
deriving DecidableEq

/-- The diff() and pct_change() columns: each row carries the change from
the previous row's count, the first row carrying missing values. -/
def addChanges : Option Nat → List (Int × Nat) → List YearRow
  | _, [] => []
  | prev, yc :: rest =>
    { year := yc.1, count := yc.2,
      yoyChange := prev.map (fun p => (yc.2 : Int) - (p : Int)),
      yoyPctChange := prev.map (fun p => (((yc.2 : ℚ) - (p : ℚ)) / (p : ℚ)) * 100) } ::
    addChanges (some yc.2) rest

/-- The summary table of analyze_targets_over_time. -/
def targets_by_year_summary (ts : List TargetRecord) : List YearRow :=
  addChanges none (value_counts_sorted (ts.filterMap (fun r => parseYearNum r.year)))

/-- analyze_targets_over_time: skipped (with a console message) when the
loaded table is empty, otherwise the summary table is produced. -/
def analyze_targets_over_time (ts : List TargetRecord) : Option (List YearRow) :=
  if ts.isEmpty then none else some (targets_by_year_summary ts)

/-- groupby(['year_numeric','commitment_strength']).size(): the distinct
(year, strength) keys in first-appearance order with their counts. -/
def langByYearStrength (ls : List LanguageRecord) :
    List ((Option Int × List Char) × Nat) :=
  let keys := (ls.map (fun r => (parseYearNum r.year, r.commitment_strength))).dedup
  keys.map (fun k =>
    (k, ls.countP (fun r => (parseYearNum r.year, r.commitment_strength) == k)))

/-- analyze_commitment_language: skipped when the loaded table is empty. -/
def analyze_commitment_language (ls : List LanguageRecord) :
    Option (List ((Option Int × List Char) × Nat)) :=
  if ls.isEmpty then none else some (langByYearStrength ls)

/-- analyze_initiatives: counts by year, skipped when empty. -/
def analyze_initiatives (xs : List InitiativeRecord) : Option (List (Int × Nat)) :=
  if xs.isEmpty then none
  else some (value_counts_sorted (xs.filterMap (fun r => parseYearNum r.year)))

/-- groupby(['year_numeric','impact_area'])['occurrence_count'].sum(). -/
def impactByYearArea (xs : List ImpactRecord) :
    List ((Option Int × List Char) × Nat) :=
  let keys := (xs.map (fun r => (parseYearNum r.year, r.impact_area))).dedup
  keys.map (fun k =>
    (k, ((xs.filter (fun r => (parseYearNum r.year, r.impact_area) == k)).map
          ImpactRecord.occurrence_count).sum))

/-- analyze_impact_areas: skipped when the loaded table is empty. -/
def analyze_impact_areas (xs : List ImpactRecord) :
    Option (List ((Option Int × List Char) × Nat)) :=
  if xs.isEmpty then none else some (impactByYearArea xs)

/-- load_data for one table: a missing file (FileNotFoundError) is
replaced by an empty result set. -/
def load_table {α : Type} (o : Option (List α)) : List α :=
  o.getD []

/-- The outcome of run_all_analyses: one optional result per analysis,
none encoding a skip with a console warning. -/
structure AnalysisResults where
  targets : Option (List YearRow)
  language : Option (List ((Option Int × List Char) × Nat))
  initiatives : Option (List (Int × Nat))
  impact : Option (List ((Option Int × List Char) × Nat))
deriving DecidableEq

/-- load_data followed by run_all_analyses: each CSV is loaded
independently (missing gives the empty set) and each analysis consumes
only its own table. -/
def run_all_analyses (a : Option (List TargetRecord)) (b : Option (List LanguageRecord))
    (c : Option (List InitiativeRecord)) (d : Option (List ImpactRecord)) :
    AnalysisResults :=
  { targets := analyze_targets_over_time (load_table a),
    language := analyze_commitment_language (load_table b),
    initiatives := analyze_initiatives (load_table c),
    impact := analyze_impact_areas (load_table d) }

/-! ## Specification-side definitions used to state the claims -/

/-- pat occurs contiguously inside s. -/
def hasSub (pat s : List Char) : Prop :=
  ∃ a b, s = a ++ pat ++ b

/-- Declarative count of the leftmost non-overlapping occurrences of a
literal pattern, written independently of the finditer scanner. -/
def countOcc : Nat → List Char → List Char → Nat
  | 0, _, _ => 0
  | _ + 1, _, [] => 0
  | f + 1, pat, c :: cs =>
    if leadsWith pat (c :: cs) then
      1 + countOcc f pat ((c :: cs).drop (max pat.length 1))
    else countOcc f pat cs

/-- countOcc with sufficient fuel. -/
def countOccSpec (pat s : List Char) : Nat :=
  countOcc s.length pat s

/-- Index of the leftmost occurrence of a literal pattern, if any. -/
def firstOcc : Nat → List Char → List Char → Option Nat
  | 0, _, _ => none
  | _ + 1, _, [] => none
  | f + 1, pat, c :: cs =>
    if leadsWith pat (c :: cs) then some 0
    else (firstOcc f pat cs).map (· + 1)

/-- firstOcc with sufficient fuel. -/
def firstOccSpec (pat s : List Char) : Option Nat :=
  firstOcc s.length pat s

/-- The grouping key of claim C4. -/
def impactTriple (r : ImpactRecord) : Nat × List Char × List Char :=
  (r.page_number, r.impact_area, r.keyword)

/-- All (area, keyword) pairs of the impact taxonomy, in order. -/
def impactAllPairs : List (List Char × List Char) :=
  impact_keywords.flatMap (fun ak => ak.2.map (fun kw => (ak.1, kw)))

/-- A page mentioning water twice and reuse once, for the C4 witness. -/
def c4page : PageData :=
  { page_number := 1, total_pages := 1, text := "Water and water reuse".toList }

/-- t contains no match of the page-delimiter pattern at any position. -/
def noDelim (t : List Char) : Prop :=
  ∀ p, matchDelimAt (t.drop p) = none

/-- Boolean check for noDelim. -/
def noDelimB : List Char → Bool
  | [] => true
  | c :: cs => (matchDelimAt (c :: cs)).isNone && noDelimB cs

/-- y is a four-character year of this century: 20 followed by two
digits, the only years the extractor's pattern can recognise. -/
def isYear20 (y : List Char) : Prop :=
  ∃ d1 d2, y = ['2', '0', d1, d2] ∧ isDigitC d1 = true ∧ isDigitC d2 = true

/-- The character before an occurrence ending the prefix a permits a
word boundary. -/
def lastBoundaryOk (a : List Char) : Bool :=
  boundaryOkC a.getLast?

/-- y occurs inside w delimited by word boundaries on both sides. -/
def boundaryOcc (y w : List Char) : Prop :=
  ∃ a b, w = a ++ y ++ b ∧ lastBoundaryOk a = true ∧ headNotWord b = true

/-- y is a string of exactly four digit characters. -/
def isFourDigits (y : List Char) : Prop :=
  y.length = 4 ∧ ∀ c ∈ y, isDigitC c = true

/-- Claim C2 as stated: for every target hit, a 4-digit year string
occurs as a substring of the whitespace-collapsed ±200 context window
if and only if it appears among the extracted target years. -/
def C2Stated : Prop :=
  ∀ pg : PageData, ∀ h ∈ targetHitsPage pg, ∀ y : List Char,
    isFourDigits y → (hasSub y h.context ↔ y ∈ h.yrs)

/-- No pattern of any of the four stage-2 pattern sets matches anywhere
on this page. -/
def pageNoMatches (pg : PageData) : Prop :=
  (∀ pat ∈ target_keywords, findIter (tpatM pat) pg.text = []) ∧
  (∀ ph ∈ commitment_strong ++ commitment_moderate ++ commitment_weak,
     containsSub ph (lowerL pg.text) = false) ∧
  (∀ pat ∈ initiative_keywords, findIter (ipatM pat) pg.text = []) ∧
  (∀ ak ∈ impact_keywords, ∀ kw ∈ ak.2,
     findIter (litM (lowerL kw)) (lowerL pg.text) = [])

/-! ## Concrete sample inputs used by witnesses and counterexamples -/

/-- The scenario sentence of claim C1, as a single page. -/
def c1page : PageData :=
  { page_number := 1, total_pages := 1,
    text := ("We are committed to achieving net zero by 2040, " ++
             "a 50% reduction from 2020 levels").toList }

/-- Metadata for the C1 scenario. -/
def c1md : Metadata :=
  { source_file := some ("report.pdf".toList),
    year := some ("2023".toList),
    document_type := some ("Report".toList) }

/-- A page whose only target match sits next to a last-century year. -/
def c2page : PageData :=
  { page_number := 1, total_pages := 1, text := "target 1999".toList }

/-- The single target hit of c2page: the keyword match on 'target' with
the whole page as its window, in which no 20xx year occurs. -/
def c2hit : TargetHit :=
  { mstart := 0, mend := 6, context := "target 1999".toList, pcts := [], yrs := [] }

/-- A page on which no pattern of any set matches. -/
def c7page : PageData :=
  { page_number := 1, total_pages := 1, text := "zq zq".toList }

/-- A target row carrying only a year, for the stage-3 witnesses. -/
def mkYearTarget (y : List Char) : TargetRecord :=
  { year := y, document := [], source_file := [], page_number := 1,
    target_text := [], percentages := [], target_years := [],
    keyword_matched := [] }

/-- Three target rows in 2022 and three in 2023, the equal-count
year-over-year scenario of the specification. -/
def c8targets : List TargetRecord :=
  [ mkYearTarget ("2022".toList), mkYearTarget ("2022".toList),
    mkYearTarget ("2022".toList), mkYearTarget ("2023".toList),
    mkYearTarget ("2023".toList), mkYearTarget ("2023".toList) ]

/-- Two delimiter-free page texts for the round-trip witness. -/
def c10texts : List (List Char) :=
  [ "Hello page one.".toList, "World page two.".toList ]

/-- A one-page stage-1 output file whose page mentions a goal, used to
witness the provenance invariant through a real parse. -/
def c5content : List Char :=
  save_extracted_text ("a.pdf".toList) ("2023".toList) ("Report".toList)
    ("2026-10-12".toList) ["our goal here".toList]

/-- The single page of c5content as parse_text_file returns it. -/
def c5page : PageData :=
  { page_number := 1, total_pages := 1, text := "\nour goal here\n".toList }

/-- The middle line of a delimiter-shaped string with digit groups d1 d2. -/
def rbChars (d1 d2 : List Char) : List Char :=
  pgOpen ++ d1 ++ ofSep ++ d2 ++ [']']

/-- A delimiter-shaped string: what any match of the page-delimiter
pattern looks like, for arbitrary digit groups. -/
def delimCore (d1 d2 : List Char) : List Char :=
  EQS ++ '\n' :: rbChars d1 d2 ++ '\n' :: EQS

/-- The page entries the round-trip claim expects parse_text_file to
recover from a stage-1 file: for the i-th of n page texts, page number i,
total n, and the original text wrapped in the newlines the writer adds
(one before; one after for the last page, two otherwise, the second being
the start of the next page marker). -/
def pageTriples (n : Nat) : Nat → List (List Char) → List (Nat × Nat × List Char)
  | _, [] => []
  | i, [t] => [(i, n, '\n' :: t ++ ['\n'])]
  | i, t :: t2 :: rest =>
    (i, n, '\n' :: t ++ ['\n', '\n']) :: pageTriples n (i + 1) (t2 :: rest)

/-! ## Whitespace-collapse lemmas -/

theorem mem_splitWSAux :
    ∀ (s acc : List Char), (∀ c ∈ acc, isWSChar c = false) →
      ∀ w ∈ splitWSAux s acc, ∀ c ∈ w, isWSChar c = false := by
  intro s
  induction s with
  | nil =>
    intro acc hacc w hw c hc
    by_cases hae : acc.isEmpty
    · simp [splitWSAux, hae] at hw
    · simp [splitWSAux, hae] at hw
      subst hw
      exact hacc c (List.mem_reverse.mp hc)
  | cons ch cs ih =>
    intro acc hacc w hw c hc
    by_cases hch : isWSChar ch = true
    · by_cases hae : acc.isEmpty
      · simp [splitWSAux, hch, hae] at hw
        exact ih [] (by simp) w hw c hc
      · simp [splitWSAux, hch, hae] at hw
        rcases hw with h | h
        · subst h
          exact hacc c (List.mem_reverse.mp hc)
        · exact ih [] (by simp) w h c hc
    · simp [splitWSAux, hch] at hw
      refine ih (ch :: acc) ?_ w hw c hc
      intro d hd
      rcases List.mem_cons.mp hd with h | h
      · subst h
        exact Bool.not_eq_true _ ▸ (by simpa using hch)
      · exact hacc d h

theorem mem_joinSp {c : Char} :
    ∀ {ws : List (List Char)}, c ∈ joinSp ws → c = ' ' ∨ ∃ w ∈ ws, c ∈ w := by
  intro ws
  induction ws with
  | nil => intro h; simp [joinSp] at h
  | cons w ws ih =>
    intro h
    cases ws with
    | nil =>
      right
      exact ⟨w, List.mem_singleton.mpr rfl, h⟩
    | cons w2 ws2 =>
      have hun : joinSp (w :: w2 :: ws2) = w ++ ' ' :: joinSp (w2 :: ws2) := rfl
      rw [hun] at h
      rcases List.mem_append.mp h with h | h
      · exact Or.inr ⟨w, List.mem_cons_self _ _, h⟩
      · rcases List.mem_cons.mp h with h | h
        · exact Or.inl h
        · rcases ih h with h | ⟨w3, hw3, hc3⟩
          · exact Or.inl h
          · exact Or.inr ⟨w3, List.mem_cons_of_mem _ hw3, hc3⟩

theorem collapse_mem_space {s : List Char} {c : Char}
    (h : c ∈ collapseWS s) (hws : isWSChar c = true) : c = ' ' := by
  rcases mem_joinSp h with h | ⟨w, hw, hc⟩
  · exact h
  · have := mem_splitWSAux s [] (by simp) w hw c hc
    rw [this] at hws
    cases hws

theorem nl_not_mem_collapseWS (s : List Char) : '\n' ∉ collapseWS s := by
  intro h
  have := collapse_mem_space h (by decide)
  simp at this

theorem nl_mem_delimChars (i n : Nat) : '\n' ∈ delimChars i n := by
  unfold delimChars
  exact List.mem_append_right _ (List.mem_cons_self _ _)

theorem not_hasSub_of_missing_char {pat s : List Char} {c : Char}
    (hc : c ∈ pat) (hs : c ∉ s) : ¬ hasSub pat s := by
  rintro ⟨a, b, rfl⟩
  exact hs (by simp [hc])

/-- Shape of every stored context: a collapsed window truncated to its
cap never exceeds the cap and never contains the page delimiter. -/
theorem snippet_ok (x : List Char) (n : Nat) :
    ((collapseWS x).take n).length ≤ n ∧
      ∀ i m, ¬ hasSub (delimChars i m) ((collapseWS x).take n) := by
  constructor
  · rw [List.length_take]
    exact min_le_left _ _
  · intro i m
    refine not_hasSub_of_missing_char (nl_mem_delimChars i m) ?_
    intro h
    exact nl_not_mem_collapseWS x (List.take_subset _ _ h)

/-! ## Shape of the records each pass emits -/

theorem targetsPage_shape {md : Metadata} {pg : PageData} {r : TargetRecord}
    (h : r ∈ extractTargetsPage md pg) :
    (∃ x, r.target_text = (collapseWS x).take 300) ∧
      r.page_number = pg.page_number ∧ r.year = yearField md ∧
      r.document = documentField md := by
  rcases List.mem_map.mp h with ⟨hit, hhit, rfl⟩
  rcases List.mem_flatMap.mp hhit with ⟨pat, _, hm⟩
  rcases List.mem_map.mp hm with ⟨m, _, rfl⟩
  exact ⟨⟨stripWS (sliceCL pg.text (m.1 - 200) (m.2 + 200)), rfl⟩, rfl, rfl, rfl⟩

theorem langRecordsFor_shape {md : Metadata} {pg : PageData} {st : List Char}
    {phs : List (List Char)} {r : LanguageRecord}
    (h : r ∈ langRecordsFor md pg st phs) :
    (∃ x, r.context = (collapseWS x).take 250) ∧
      r.page_number = pg.page_number ∧ r.year = yearField md ∧
      r.document = documentField md := by
  rcases List.mem_flatMap.mp h with ⟨ph, _, h2⟩
  by_cases hg : containsSub ph (lowerL pg.text) = true
  · simp only [hg, if_true] at h2
    rcases List.mem_map.mp h2 with ⟨m, _, rfl⟩
    exact ⟨⟨sliceCL pg.text (m.1 - 150) (m.2 + 150), rfl⟩, rfl, rfl, rfl⟩
  · simp [hg] at h2

theorem languagePage_shape {md : Metadata} {pg : PageData} {r : LanguageRecord}
    (h : r ∈ extractLanguagePage md pg) :
    (∃ x, r.context = (collapseWS x).take 250) ∧
      r.page_number = pg.page_number ∧ r.year = yearField md ∧
      r.document = documentField md := by
  have hdef : extractLanguagePage md pg =
      langRecordsFor md pg ("Strong".toList) commitment_strong ++
      langRecordsFor md pg ("Moderate".toList) commitment_moderate ++
      langRecordsFor md pg ("Weak/Hedging".toList) commitment_weak := rfl
  rw [hdef] at h
  rcases List.mem_append.mp h with h | h
  · rcases List.mem_append.mp h with h | h
    · exact langRecordsFor_shape h
    · exact langRecordsFor_shape h
  · exact langRecordsFor_shape h

theorem initiativesPage_shape {md : Metadata} {pg : PageData} {r : InitiativeRecord}
    (h : r ∈ extractInitiativesPage md pg) :
    (∃ x, r.initiative_text = (collapseWS x).take 300) ∧
      r.page_number = pg.page_number ∧ r.year = yearField md ∧
      r.document = documentField md := by
  rcases List.mem_flatMap.mp h with ⟨pat, _, h2⟩
  rcases List.mem_map.mp h2 with ⟨m, _, rfl⟩
  exact ⟨⟨sliceCL pg.text (m.1 - 200) (m.2 + 200), rfl⟩, rfl, rfl, rfl⟩

theorem impactPage_shape {md : Metadata} {pg : PageData} {r : ImpactRecord}
    (h : r ∈ extractImpactPage md pg) :
    (∃ x, r.example_context = (collapseWS x).take 200) ∧
      r.page_number = pg.page_number ∧ r.year = yearField md ∧
      r.document = documentField md := by
  unfold extractImpactPage at h
  rcases List.mem_flatMap.mp h with ⟨ak, _, h2⟩
  rcases List.mem_filterMap.mp h2 with ⟨kw, _, hf⟩
  revert hf
  cases hms : findIter (litM (lowerL kw)) (lowerL pg.text) with
  | nil => intro hf; simp [hms] at hf
  | cons m rest =>
    intro hf
    simp only [hms] at hf
    cases hf
    exact ⟨⟨sliceCL (lowerL pg.text) (m.1 - 100) (m.2 + 100), rfl⟩, rfl, rfl, rfl⟩

/-- C3: every record emitted by any of the four extraction passes stores
a context snippet within its cap (300 for targets and initiatives, 250
for language, 200 for impact areas) that never contains the raw
page-delimiter string, whatever its page numbers. -/
theorem context_window_caps (pages : List PageData) (md : Metadata) :
    (∀ r ∈ extract_targets_and_goals pages md,
       r.target_text.length ≤ 300 ∧ ∀ i n, ¬ hasSub (delimChars i n) r.target_text) ∧
    (∀ r ∈ extract_language_patterns pages md,
       r.context.length ≤ 250 ∧ ∀ i n, ¬ hasSub (delimChars i n) r.context) ∧
    (∀ r ∈ extract_initiatives pages md,
       r.initiative_text.length ≤ 300 ∧ ∀ i n, ¬ hasSub (delimChars i n) r.initiative_text) ∧
    (∀ r ∈ extract_impact_areas pages md,
       r.example_context.length ≤ 200 ∧ ∀ i n, ¬ hasSub (delimChars i n) r.example_context) := by
  refine ⟨?_, ?_, ?_, ?_⟩
  · intro r hr
    rcases List.mem_flatMap.mp hr with ⟨pg, _, hpg⟩
    rcases (targetsPage_shape hpg).1 with ⟨x, hx⟩
    rw [hx]
    exact snippet_ok x 300
  · intro r hr
    rcases List.mem_flatMap.mp hr with ⟨pg, _, hpg⟩
    rcases (languagePage_shape hpg).1 with ⟨x, hx⟩
    rw [hx]
    exact snippet_ok x 250
  · intro r hr
    rcases List.mem_flatMap.mp hr with ⟨pg, _, hpg⟩
    rcases (initiativesPage_shape hpg).1 with ⟨x, hx⟩
    rw [hx]
    exact snippet_ok x 300
  · intro r hr
    rcases List.mem_flatMap.mp hr with ⟨pg, _, hpg⟩
    rcases (impactPage_shape hpg).1 with ⟨x, hx⟩
    rw [hx]
    exact snippet_ok x 200

/-- C5: for a parsed input file, every record any pass emits from a page
carries that page's page_number and the year and document type of the
file's header metadata; each pass is the concatenation of its per-page
contributions, so every emitted record is covered. -/
theorem provenance_invariant (content : List Char) (md : Metadata) (pages : List PageData)
    (_hparse : parse_text_file content = (md, pages)) :
    (extract_targets_and_goals pages md = pages.flatMap (extractTargetsPage md) ∧
      ∀ pg ∈ pages, ∀ r ∈ extractTargetsPage md pg,
        r.page_number = pg.page_number ∧ r.year = yearField md ∧
        r.document = documentField md) ∧
    (extract_language_patterns pages md = pages.flatMap (extractLanguagePage md) ∧
      ∀ pg ∈ pages, ∀ r ∈ extractLanguagePage md pg,
        r.page_number = pg.page_number ∧ r.year = yearField md ∧
        r.document = documentField md) ∧
    (extract_initiatives pages md = pages.flatMap (extractInitiativesPage md) ∧
      ∀ pg ∈ pages, ∀ r ∈ extractInitiativesPage md pg,
        r.page_number = pg.page_number ∧ r.year = yearField md ∧
        r.document = documentField md) ∧
    (extract_impact_areas pages md = pages.flatMap (extractImpactPage md) ∧
      ∀ pg ∈ pages, ∀ r ∈ extractImpactPage md pg,
        r.page_number = pg.page_number ∧ r.year = yearField md ∧
        r.document = documentField md) := by
  refine ⟨⟨rfl, ?_⟩, ⟨rfl, ?_⟩, ⟨rfl, ?_⟩, ⟨rfl, ?_⟩⟩
  · intro pg _ r hr
    exact (targetsPage_shape hr).2
  · intro pg _ r hr
    exact (languagePage_shape hr).2
  · intro pg _ r hr
    exact (initiativesPage_shape hr).2
  · intro pg _ r hr
    exact (impactPage_shape hr).2

/-- Witness for C3 on the scenario page's first target record. -/
theorem context_window_caps_witness :
    ∃ r ∈ extract_targets_and_goals [c1page] c1md,
      r.target_text.length ≤ 300 ∧
      ∀ i n, ¬ hasSub (delimChars i n) r.target_text := by
  obtain ⟨r, hr⟩ : ∃ x, (extract_targets_and_goals [c1page] c1md).head? = some x :=
    ⟨_, rfl⟩
  have hmem : r ∈ extract_targets_and_goals [c1page] c1md := by
    refine List.mem_of_mem_head? ?_
    rw [hr]
    rfl
  exact ⟨r, hmem, (context_window_caps [c1page] c1md).1 r hmem⟩

/-- Witness for C5 on a real one-page stage-1 file. -/
theorem provenance_invariant_witness :
    ∃ pg r, pg ∈ (parse_text_file c5content).2 ∧
      r ∈ extractTargetsPage (parse_text_file c5content).1 pg ∧
      r.page_number = pg.page_number ∧
      r.year = yearField (parse_text_file c5content).1 ∧
      r.document = documentField (parse_text_file c5content).1 := by
  obtain ⟨pg, hpg⟩ : ∃ x, ((parse_text_file c5content).2).head? = some x := ⟨_, rfl⟩
  have hpgm : pg ∈ (parse_text_file c5content).2 := by
    refine List.mem_of_mem_head? ?_
    rw [hpg]
    rfl
  have hpgv : pg = c5page := by
    have h2 : ((parse_text_file c5content).2).head? = some c5page := by rfl
    rw [hpg] at h2
    exact Option.some.inj h2
  subst hpgv
  obtain ⟨r, hr⟩ :
      ∃ x, (extractTargetsPage (parse_text_file c5content).1 c5page).head? = some x :=
    ⟨_, rfl⟩
  have hrm : r ∈ extractTargetsPage (parse_text_file c5content).1 c5page := by
    refine List.mem_of_mem_head? ?_
    rw [hr]
    rfl
  exact ⟨c5page, r, hpgm, hrm,
    (provenance_invariant c5content _ _ rfl).1.2 c5page hpgm r hrm⟩

/-! ## Error handling of the stage-2 file loop (C6) and stage-3 loads (C9) -/

/-- C6: a file whose read or parse raises is skipped: the run over the
listing with the failing file equals the run without it, and the
collections right after the failing file equal the collections right
before it, so no partial record of a failed file survives. -/
theorem failed_file_skipped (xs ys : List FileInput) (e : List Char) :
    process_all_text_files (xs ++ Except.error e :: ys) =
      process_all_text_files (xs ++ ys) ∧
    (xs ++ [Except.error e]).foldl processFile emptyState =
      xs.foldl processFile emptyState := by
  constructor
  · unfold process_all_text_files
    rw [List.foldl_append, List.foldl_append]
    rfl
  · rw [List.foldl_append]
    rfl

/-- C9: a missing stage-3 input table is loaded as the empty result set,
the analysis depending on it is skipped (none, after a console warning)
rather than raising, and each of the other three analyses computes the
same result as with any other value of the missing table. -/
theorem missing_table_skipped (b : Option (List LanguageRecord))
    (c : Option (List InitiativeRecord)) (d : Option (List ImpactRecord))
    (a : Option (List TargetRecord)) :
    (load_table (none : Option (List TargetRecord)) = [] ∧
      (run_all_analyses none b c d).targets = none ∧
      ∀ a' : Option (List TargetRecord),
        (run_all_analyses none b c d).language = (run_all_analyses a' b c d).language ∧
        (run_all_analyses none b c d).initiatives = (run_all_analyses a' b c d).initiatives ∧
        (run_all_analyses none b c d).impact = (run_all_analyses a' b c d).impact) ∧
    (load_table (none : Option (List LanguageRecord)) = [] ∧
      (run_all_analyses a none c d).language = none ∧
      ∀ b' : Option (List LanguageRecord),
        (run_all_analyses a none c d).targets = (run_all_analyses a b' c d).targets ∧
        (run_all_analyses a none c d).initiatives = (run_all_analyses a b' c d).initiatives ∧
        (run_all_analyses a none c d).impact = (run_all_analyses a b' c d).impact) ∧
    (load_table (none : Option (List InitiativeRecord)) = [] ∧
      (run_all_analyses a b none d).initiatives = none ∧
      ∀ c' : Option (List InitiativeRecord),
        (run_all_analyses a b none d).targets = (run_all_analyses a b c' d).targets ∧
        (run_all_analyses a b none d).language = (run_all_analyses a b c' d).language ∧
        (run_all_analyses a b none d).impact = (run_all_analyses a b c' d).impact) ∧
    (load_table (none : Option (List ImpactRecord)) = [] ∧
      (run_all_analyses a b c none).impact = none ∧
      ∀ d' : Option (List ImpactRecord),
        (run_all_analyses a b c none).targets = (run_all_analyses a b c d').targets ∧
        (run_all_analyses a b c none).language = (run_all_analyses a b c d').language ∧
        (run_all_analyses a b c none).initiatives = (run_all_analyses a b c d').initiatives) :=
  ⟨⟨rfl, rfl, fun _ => ⟨rfl, rfl, rfl⟩⟩,
   ⟨rfl, rfl, fun _ => ⟨rfl, rfl, rfl⟩⟩,
   ⟨rfl, rfl, fun _ => ⟨rfl, rfl, rfl⟩⟩,
   ⟨rfl, rfl, fun _ => ⟨rfl, rfl, rfl⟩⟩⟩

/-! ## Year-over-year changes in the stage-3 summary table (C8) -/

theorem addChanges_first (l : List (Int × Nat)) (r : YearRow)
    (h : (addChanges none l)[0]? = some r) :
    r.yoyChange = none ∧ r.yoyPctChange = none := by
  cases l with
  | nil => simp [addChanges] at h
  | cons yc rest =>
    simp [addChanges] at h
    rw [← h]
    exact ⟨rfl, rfl⟩

theorem addChanges_step :
    ∀ (l : List (Int × Nat)) (prev : Option Nat) (i : Nat) (r r' : YearRow),
      (addChanges prev l)[i]? = some r → (addChanges prev l)[i + 1]? = some r' →
      r'.yoyChange = some ((r'.count : Int) - (r.count : Int)) ∧
      r'.yoyPctChange =
        some ((((r'.count : ℚ) - (r.count : ℚ)) / (r.count : ℚ)) * 100) := by
  intro l
  induction l with
  | nil =>
    intro prev i r r' h _
    simp [addChanges] at h
  | cons yc rest ih =>
    intro prev i r r' h h'
    cases i with
    | zero =>
      simp [addChanges] at h h'
      cases rest with
      | nil => simp [addChanges] at h'
      | cons yc2 rest2 =>
        simp [addChanges] at h'
        rw [← h, ← h']
        exact ⟨rfl, rfl⟩
    | succ j =>
      simp only [addChanges, List.getElem?_cons_succ] at h h'
      exact ih (some yc.2) j r r' h h'

/-- C8: in the targets-by-year summary table, every row after the first
carries YoY Change equal to its count minus the previous row's count and
YoY % Change equal to that difference divided by the previous count
times one hundred; the first row carries missing values for both. -/
theorem yoy_change_correct (ts : List TargetRecord) :
    (∀ r, (targets_by_year_summary ts)[0]? = some r →
       r.yoyChange = none ∧ r.yoyPctChange = none) ∧
    (∀ i r r', (targets_by_year_summary ts)[i]? = some r →
       (targets_by_year_summary ts)[i + 1]? = some r' →
       r'.yoyChange = some ((r'.count : Int) - (r.count : Int)) ∧
       r'.yoyPctChange =
         some ((((r'.count : ℚ) - (r.count : ℚ)) / (r.count : ℚ)) * 100)) :=
  ⟨fun r h => addChanges_first _ r h,
   fun i r r' h h' => addChanges_step _ none i r r' h h'⟩

/-- Witness for C8 at the equal-count scenario of the specification: two
years with three targets each give a second row with zero change. -/
theorem yoy_change_correct_witness :
    ∃ r r', (targets_by_year_summary c8targets)[0]? = some r ∧
      (targets_by_year_summary c8targets)[1]? = some r' ∧
      r.yoyChange = none ∧ r.yoyPctChange = none ∧
      r'.yoyChange = some ((r'.count : Int) - (r.count : Int)) ∧
      r'.yoyPctChange =
        some ((((r'.count : ℚ) - (r.count : ℚ)) / (r.count : ℚ)) * 100) ∧
      r'.yoyChange = some 0 := by
  have h0 : (targets_by_year_summary c8targets)[0]? =
      some { year := 2022, count := 3, yoyChange := none, yoyPctChange := none } := by
    rfl
  obtain ⟨r1, h1⟩ : ∃ x, (targets_by_year_summary c8targets)[1]? = some x := ⟨_, rfl⟩
  have hc1 : Option.map YearRow.count ((targets_by_year_summary c8targets)[1]?) =
      some 3 := by rfl
  rw [h1] at hc1
  have hc1' : r1.count = 3 := by
    simpa using hc1
  refine ⟨_, r1, h0, h1, ?_, ?_, ?_, ?_, ?_⟩
  · exact ((yoy_change_correct c8targets).1 _ h0).1
  · exact ((yoy_change_correct c8targets).1 _ h0).2
  · exact ((yoy_change_correct c8targets).2 0 _ _ h0 h1).1
  · exact ((yoy_change_correct c8targets).2 0 _ _ h0 h1).2
  · rw [((yoy_change_correct c8targets).2 0 _ _ h0 h1).1, hc1']
    rfl

/-! ## The concrete scenarios C1 and C7 -/

/-- C1: on the single-page scenario sentence, stage 2 emits a
TargetRecord whose keyword is net zero (or a reduce-by match), a Strong
LanguageRecord matched on the phrase committed to, and a TargetRecord
whose target years contain 2040 and 2020 and whose percentages contain
50. -/
theorem single_page_scenario :
    ((extract_targets_and_goals [c1page] c1md).any (fun r =>
        r.keyword_matched == "net zero".toList ||
        leadsWithCI ("reduce".toList) r.keyword_matched) = true) ∧
    ((extract_language_patterns [c1page] c1md).any (fun r =>
        r.commitment_strength == "Strong".toList &&
        r.phrase == "committed to".toList) = true) ∧
    ((extract_targets_and_goals [c1page] c1md).any (fun r =>
        containsSub ("2040".toList) r.target_years &&
        containsSub ("2020".toList) r.target_years &&
        containsSub ("50".toList) r.percentages) = true) := by
  refine ⟨?_, ?_, ?_⟩ <;> decide

/-- C7: when no pattern of any of the four sets matches on any page, all
four output tables are empty and the statistics report all four counts
as zero; the run is a total function, so no error is raised. -/
theorem zero_match_run (md : Metadata) (pages : List PageData)
    (h : ∀ pg ∈ pages, pageNoMatches pg) :
    extract_targets_and_goals pages md = [] ∧
    extract_language_patterns pages md = [] ∧
    extract_initiatives pages md = [] ∧
    extract_impact_areas pages md = [] ∧
    create_summary_statistics (processOne emptyState md pages) = ⟨0, 0, 0, 0⟩ := by
  have ht : extract_targets_and_goals pages md = [] := by
    refine List.flatMap_eq_nil_iff.mpr ?_
    intro pg hpg
    refine List.map_eq_nil_iff.mpr ?_
    refine List.flatMap_eq_nil_iff.mpr ?_
    intro pat hpat
    rw [(h pg hpg).1 pat hpat]
    rfl
  have hl : extract_language_patterns pages md = [] := by
    refine List.flatMap_eq_nil_iff.mpr ?_
    intro pg hpg
    have hgroup : ∀ st phs, phs ⊆ commitment_strong ++ commitment_moderate ++ commitment_weak →
        langRecordsFor md pg st phs = [] := by
      intro st phs hsub
      refine List.flatMap_eq_nil_iff.mpr ?_
      intro ph hph
      rw [if_neg]
      rw [(h pg hpg).2.1 ph (hsub hph)]
      simp
    have hdef : extractLanguagePage md pg =
        langRecordsFor md pg ("Strong".toList) commitment_strong ++
        langRecordsFor md pg ("Moderate".toList) commitment_moderate ++
        langRecordsFor md pg ("Weak/Hedging".toList) commitment_weak := rfl
    rw [hdef]
    rw [hgroup _ _ (fun x hx => by simp [hx]),
        hgroup _ _ (fun x hx => by simp [hx]),
        hgroup _ _ (fun x hx => by simp [hx])]
    rfl
  have hi : extract_initiatives pages md = [] := by
    refine List.flatMap_eq_nil_iff.mpr ?_
    intro pg hpg
    refine List.flatMap_eq_nil_iff.mpr ?_
    intro pat hpat
    rw [(h pg hpg).2.2.1 pat hpat]
    rfl
  have him : extract_impact_areas pages md = [] := by
    refine List.flatMap_eq_nil_iff.mpr ?_
    intro pg hpg
    refine List.flatMap_eq_nil_iff.mpr ?_
    intro ak hak
    refine List.filterMap_eq_nil_iff.mpr ?_
    intro kw hkw
    rw [(h pg hpg).2.2.2 ak hak kw hkw]
  refine ⟨ht, hl, hi, him, ?_⟩
  simp [processOne, create_summary_statistics, emptyState, ht, hl, hi, him]

/-! ## Exact characterisation of the extracted target years (C2) -/

theorem isWordC_of_digit {c : Char} (h : isDigitC c = true) : isWordC c = true := by
  simp [isWordC, h]

theorem matchYearAt_some {prev : Option Char} {s : List Char} {d1 d2 : Char}
    {rest : List Char} (h : matchYearAt prev s = some (d1, d2, rest)) :
    s = '2' :: '0' :: d1 :: d2 :: rest ∧ boundaryOkC prev = true ∧
      isDigitC d1 = true ∧ isDigitC d2 = true ∧ headNotWord rest = true := by
  match s with
  | [] => simp [matchYearAt] at h
  | [c1] => simp [matchYearAt] at h
  | [c1, c2] => simp [matchYearAt] at h
  | [c1, c2, c3] => simp [matchYearAt] at h
  | c1 :: c2 :: e1 :: e2 :: r =>
    by_cases hc : c1 = '2' ∧ c2 = '0' ∧ boundaryOkC prev = true ∧ isDigitC e1 = true ∧
        isDigitC e2 = true ∧ headNotWord r = true
    · rw [matchYearAt, if_pos hc] at h
      obtain ⟨rfl, rfl, rfl⟩ : e1 = d1 ∧ e2 = d2 ∧ r = rest := by
        simpa using h
      exact ⟨by rw [hc.1, hc.2.1], hc.2.2.1, hc.2.2.2.1, hc.2.2.2.2.1, hc.2.2.2.2.2⟩
    · rw [matchYearAt, if_neg hc] at h
      cases h

theorem matchYearAt_of (prev : Option Char) (d1 d2 : Char) (rest : List Char)
    (hb : boundaryOkC prev = true) (h1 : isDigitC d1 = true)
    (h2 : isDigitC d2 = true) (hr : headNotWord rest = true) :
    matchYearAt prev ('2' :: '0' :: d1 :: d2 :: rest) = some (d1, d2, rest) := by
  rw [matchYearAt, if_pos ⟨rfl, rfl, hb, h1, h2, hr⟩]

theorem lastBoundaryOk_append_right (p : List Char) {a : List Char} (h : a ≠ []) :
    lastBoundaryOk (p ++ a) = lastBoundaryOk a := by
  unfold lastBoundaryOk
  rw [List.getLast?_append_of_ne_nil _ h]

/-- Membership in the year scan is exactly a word-boundary occurrence of
a 20xx string, relative to a prefix that supplies the previous
character. -/
theorem yearScan_mem :
    ∀ (f : Nat) (pre w : List Char), w.length ≤ f →
      ∀ y, y ∈ yearScan f (pre.getLast?) w ↔
        (isYear20 y ∧ ∃ a b, w = a ++ y ++ b ∧
          lastBoundaryOk (pre ++ a) = true ∧ headNotWord b = true) := by
  intro f
  induction f with
  | zero =>
    intro pre w hw y
    have hwn : w = [] := List.length_eq_zero.mp (Nat.le_zero.mp hw)
    subst hwn
    constructor
    · intro h
      simp [yearScan] at h
    · rintro ⟨⟨d1, d2, rfl, _, _⟩, a, b, habs, _, _⟩
      simp at habs
  | succ f ih =>
    intro pre w hw y
    cases w with
    | nil =>
      constructor
      · intro h
        simp [yearScan] at h
      · rintro ⟨⟨d1, d2, rfl, _, _⟩, a, b, habs, _, _⟩
        simp at habs
    | cons c cs =>
      cases hm : matchYearAt (pre.getLast?) (c :: cs) with
      | some t =>
        obtain ⟨d1, d2, rest⟩ := t
        obtain ⟨hs, hb, hd1, hd2, hr⟩ := matchYearAt_some hm
        have hscan : yearScan (f + 1) (pre.getLast?) (c :: cs) =
            ['2', '0', d1, d2] :: yearScan f (some d2) rest := by
          rw [yearScan, hm]
        have hlen : rest.length ≤ f := by
          have hl2 := congrArg List.length hs
          simp only [List.length_cons] at hl2
          simp only [List.length_cons] at hw
          omega
        have hpre2 : (pre ++ ['2', '0', d1, d2]).getLast? = some d2 := by
          rw [List.getLast?_append_of_ne_nil _ (by simp)]
          rfl
        have ih2 : ∀ y', y' ∈ yearScan f (some d2) rest ↔
            (isYear20 y' ∧ ∃ a b, rest = a ++ y' ++ b ∧
              lastBoundaryOk ((pre ++ ['2', '0', d1, d2]) ++ a) = true ∧
              headNotWord b = true) := by
          intro y'
          rw [← hpre2]
          exact ih (pre ++ ['2', '0', d1, d2]) rest hlen y'
        rw [hscan]
        constructor
        · intro hmem
          rcases List.mem_cons.mp hmem with rfl | hmem
          · refine ⟨⟨d1, d2, rfl, hd1, hd2⟩, [], rest, by simpa using hs, ?_, hr⟩
            rw [List.append_nil]
            unfold lastBoundaryOk
            exact hb
          · obtain ⟨hy20, a', b', hrr, hba, hhb⟩ := (ih2 y).mp hmem
            refine ⟨hy20, ['2', '0', d1, d2] ++ a', b', ?_, ?_, hhb⟩
            · rw [hs, hrr]
              simp
            · rwa [← List.append_assoc]
        · rintro ⟨⟨e1, e2, rfl, he1, he2⟩, a, b, hdec, hba, hhb⟩
          rw [hs] at hdec
          match a, hdec with
          | [], hdec =>
            obtain ⟨rfl, rfl, rfl⟩ : d1 = e1 ∧ d2 = e2 ∧ rest = b := by
              simpa using hdec
            exact List.mem_cons_self _ _
          | [a1], hdec =>
            exfalso
            simp at hdec
          | [a1, a2], hdec =>
            exfalso
            obtain ⟨h1, h2, _⟩ : '2' = a1 ∧ '0' = a2 ∧
                d1 :: d2 :: rest = '2' :: '0' :: e1 :: e2 :: b := by
              simpa using hdec
            rw [lastBoundaryOk_append_right pre (by simp)] at hba
            unfold lastBoundaryOk at hba
            rw [show ([a1, a2].getLast? : Option Char) = some a2 from rfl] at hba
            rw [← h2] at hba
            exact absurd hba (by decide)
          | [a1, a2, a3], hdec =>
            exfalso
            obtain ⟨h1, h2, h3, _⟩ : '2' = a1 ∧ '0' = a2 ∧ d1 = a3 ∧
                d2 :: rest = '2' :: '0' :: e1 :: e2 :: b := by
              simpa using hdec
            rw [lastBoundaryOk_append_right pre (by simp)] at hba
            unfold lastBoundaryOk at hba
            rw [show ([a1, a2, a3].getLast? : Option Char) = some a3 from rfl] at hba
            rw [← h3] at hba
            rw [show boundaryOkC (some d1) = false from by
              simp [boundaryOkC, isWordC_of_digit hd1]] at hba
            cases hba
          | a1 :: a2 :: a3 :: a4 :: a', hdec =>
            obtain ⟨h1, h2, h3, h4, h5⟩ : '2' = a1 ∧ '0' = a2 ∧ d1 = a3 ∧ d2 = a4 ∧
                rest = a' ++ '2' :: '0' :: e1 :: e2 :: b := by
              simpa using hdec
            apply List.mem_cons_of_mem
            refine (ih2 _).mpr ⟨⟨e1, e2, rfl, he1, he2⟩, a', b, by simpa using h5, ?_, hhb⟩
            rw [List.append_assoc]
            rw [show (['2', '0', d1, d2] ++ a' : List Char) = a1 :: a2 :: a3 :: a4 :: a' by
              rw [h1, h2, h3, h4]; rfl]
            exact hba
      | none =>
        have hscan : yearScan (f + 1) (pre.getLast?) (c :: cs) =
            yearScan f (some c) cs := by
          rw [yearScan, hm]
        have hlen : cs.length ≤ f := by
          simp at hw
          omega
        have hpre2 : (pre ++ [c]).getLast? = some c := by
          rw [List.getLast?_append_of_ne_nil _ (by simp)]
          rfl
        have ih2 : ∀ y', y' ∈ yearScan f (some c) cs ↔
            (isYear20 y' ∧ ∃ a b, cs = a ++ y' ++ b ∧
              lastBoundaryOk ((pre ++ [c]) ++ a) = true ∧ headNotWord b = true) := by
          intro y'
          rw [← hpre2]
          exact ih (pre ++ [c]) cs hlen y'
        rw [hscan]
        constructor
        · intro hmem
          obtain ⟨hy20, a', b', hrr, hba, hhb⟩ := (ih2 y).mp hmem
          refine ⟨hy20, c :: a', b', by rw [hrr]; rfl, ?_, hhb⟩
          rwa [show pre ++ c :: a' = (pre ++ [c]) ++ a' by simp]
        · rintro ⟨⟨e1, e2, rfl, he1, he2⟩, a, b, hdec, hba, hhb⟩
          cases a with
          | nil =>
            exfalso
            obtain ⟨rfl, hcs⟩ : c = '2' ∧ cs = '0' :: e1 :: e2 :: b := by
              simpa using hdec
            have : matchYearAt (pre.getLast?) ('2' :: cs) = some (e1, e2, b) := by
              rw [hcs]
              refine matchYearAt_of _ _ _ _ ?_ he1 he2 hhb
              rw [List.append_nil] at hba
              exact hba
            rw [this] at hm
            cases hm
          | cons a1 a' =>
            obtain ⟨rfl, hcs⟩ : c = a1 ∧ cs = a' ++ '2' :: '0' :: e1 :: e2 :: b := by
              simpa using hdec
            refine (ih2 _).mpr ⟨⟨e1, e2, rfl, he1, he2⟩, a', b, by simpa using hcs, ?_, hhb⟩
            rw [List.append_assoc]
            simpa using hba

/-- The year groups re.findall extracts from a window are exactly the
word-boundary occurrences of 20xx strings in it. -/
theorem findAllYears_mem (w y : List Char) :
    y ∈ findAllYears w ↔ isYear20 y ∧ boundaryOcc y w := by
  have h := yearScan_mem w.length [] w (Nat.le_refl _) y
  unfold findAllYears
  constructor
  · intro hm
    obtain ⟨hy, a, b, hd, hba, hhb⟩ := h.mp hm
    exact ⟨hy, a, b, hd, by simpa using hba, hhb⟩
  · rintro ⟨hy, a, b, hd, hba, hhb⟩
    exact h.mpr ⟨hy, a, b, hd, by simpa using hba, hhb⟩

/-- C2 counterexample: the claim as stated fails, because the year
pattern only recognises 20xx years at word boundaries: on the page
'target 1999' the window contains the 4-digit year 1999 but the
extracted list of target years is empty. -/
theorem c2_as_stated_false : ¬ C2Stated := by
  intro h
  obtain ⟨hit, hh⟩ : ∃ x, (targetHitsPage c2page).head? = some x := ⟨_, rfl⟩
  have hmem : hit ∈ targetHitsPage c2page := by
    refine List.mem_of_mem_head? ?_
    rw [hh]
    rfl
  have hv : hit = c2hit := by
    have h2 : (targetHitsPage c2page).head? = some c2hit := by rfl
    rw [hh] at h2
    exact Option.some.inj h2
  subst hv
  have h4 : isFourDigits ("1999".toList) := ⟨rfl, by decide⟩
  have hsub : hasSub ("1999".toList) (c2hit.context) :=
    ⟨"target ".toList, [], by decide⟩
  have hin : ("1999".toList) ∈ c2hit.yrs := (h c2page c2hit hmem _ h4).mp hsub
  simp [c2hit] at hin

/-- C2 amended: for every target hit, the record's target_years field is
the comma-join of the hit's year list, and a string belongs to that
list exactly when it is a year of the form 20xx occurring at word
boundaries in the whitespace-collapsed ±200 context window. -/
theorem target_years_amended (pg : PageData) :
    ∀ hit ∈ targetHitsPage pg,
      (∀ md, (mkTargetRec md pg hit).target_years = joinComma hit.yrs) ∧
      ∀ y, y ∈ hit.yrs ↔ isYear20 y ∧ boundaryOcc y hit.context := by
  intro hit hmem
  have hshape : hit.yrs = findAllYears hit.context := by
    rcases List.mem_flatMap.mp hmem with ⟨pat, _, hm⟩
    rcases List.mem_map.mp hm with ⟨m, _, rfl⟩
    rfl
  refine ⟨fun md => rfl, fun y => ?_⟩
  rw [hshape]
  exact findAllYears_mem hit.context y

/-- Witness for the amended C2 on the scenario page: 2040 is among the
extracted years of its first hit and does occur at word boundaries. -/
theorem target_years_amended_witness :
    ∃ hit ∈ targetHitsPage c1page,
      ("2040".toList ∈ hit.yrs ↔
        isYear20 ("2040".toList) ∧ boundaryOcc ("2040".toList) hit.context) ∧
      "2040".toList ∈ hit.yrs := by
  obtain ⟨hit, hh⟩ : ∃ x, (targetHitsPage c1page).head? = some x := ⟨_, rfl⟩
  have hmem : hit ∈ targetHitsPage c1page := by
    refine List.mem_of_mem_head? ?_
    rw [hh]
    rfl
  refine ⟨hit, hmem, (target_years_amended c1page hit hmem).2 _, ?_⟩
  have hy : hit.yrs = ["2040".toList, "2020".toList] := by
    have h2 : (targetHitsPage c1page).head?.map TargetHit.yrs =
        some ["2040".toList, "2020".toList] := by rfl
    rw [hh] at h2
    exact Option.some.inj (by simpa using h2)
  rw [hy]
  exact List.mem_cons_self _ _

/-! ## Exactly one impact record per (page, area, keyword) (C4) -/

theorem scanAux_length_countOcc (pat : List Char) :
    ∀ (f pos : Nat) (s : List Char),
      (scanAux (litM pat) f pos s).length = countOcc f pat s := by
  intro f
  induction f with
  | zero => intro pos s; rfl
  | succ f ih =>
    intro pos s
    cases s with
    | nil => rfl
    | cons c cs =>
      by_cases hl : leadsWith pat (c :: cs) = true
      · simp [scanAux, countOcc, litM, hl, ih]
        omega
      · simp [scanAux, countOcc, litM, hl, ih]

theorem scanAux_head_firstOcc (pat : List Char) :
    ∀ (f pos : Nat) (s : List Char),
      (scanAux (litM pat) f pos s).head? =
        (firstOcc f pat s).map (fun p => (pos + p, pos + p + pat.length)) := by
  intro f
  induction f with
  | zero => intro pos s; rfl
  | succ f ih =>
    intro pos s
    cases s with
    | nil => rfl
    | cons c cs =>
      by_cases hl : leadsWith pat (c :: cs) = true
      · simp [scanAux, firstOcc, litM, hl]
      · have h1 : scanAux (litM pat) (f + 1) pos (c :: cs) =
            scanAux (litM pat) f (pos + 1) cs := by
          simp [scanAux, litM, hl]
        have h2 : firstOcc (f + 1) pat (c :: cs) = (firstOcc f pat cs).map (· + 1) := by
          simp [firstOcc, hl]
        rw [h1, h2, ih (pos + 1) cs, Option.map_map]
        congr 1
        funext p
        simp only [Function.comp]
        rw [Prod.mk.injEq]
        omega

theorem firstOcc_leadsWith (pat : List Char) :
    ∀ (f : Nat) (s : List Char) (p : Nat),
      firstOcc f pat s = some p → leadsWith pat (s.drop p) = true := by
  intro f
  induction f with
  | zero => intro s p h; simp [firstOcc] at h
  | succ f ih =>
    intro s p h
    cases s with
    | nil => simp [firstOcc] at h
    | cons c cs =>
      by_cases hl : leadsWith pat (c :: cs) = true
      · simp [firstOcc, hl] at h
        rw [← h]
        exact hl
      · simp [firstOcc, hl] at h
        obtain ⟨q, hq, rfl⟩ := h
        exact ih cs q hq

theorem filterMap_map_sublist {α β γ : Type} (f : α → Option β) (h : β → γ) (g : α → γ)
    (l : List α) (hc : ∀ a ∈ l, ∀ b, f a = some b → h b = g a) :
    ((l.filterMap f).map h).Sublist (l.map g) := by
  induction l with
  | nil => simp
  | cons a t ih =>
    cases hfa : f a with
    | none =>
      rw [List.filterMap_cons, hfa, List.map_cons]
      exact (ih (fun x hx => hc x (List.mem_cons_of_mem _ hx))).cons _
    | some b =>
      rw [List.filterMap_cons, hfa, List.map_cons, List.map_cons,
        hc a (List.mem_cons_self _ _) b hfa]
      exact (ih (fun x hx => hc x (List.mem_cons_of_mem _ hx))).cons₂ _

theorem flatMap_sublist {α β : Type} (l : List α) (f g : α → List β)
    (h : ∀ a ∈ l, (f a).Sublist (g a)) : (l.flatMap f).Sublist (l.flatMap g) := by
  induction l with
  | nil => simp
  | cons a t ih =>
    rw [List.flatMap_cons, List.flatMap_cons]
    exact (h a (List.mem_cons_self _ _)).append
      (ih (fun x hx => h x (List.mem_cons_of_mem _ hx)))

theorem impactPage_triples_sublist (md : Metadata) (pg : PageData) :
    ((extractImpactPage md pg).map impactTriple).Sublist
      (impactAllPairs.map (fun q => (pg.page_number, q.1, q.2))) := by
  have hL : (extractImpactPage md pg).map impactTriple =
      impact_keywords.flatMap (fun ak =>
        (ak.2.filterMap (fun kw =>
          match findIter (litM (lowerL kw)) (lowerL pg.text) with
          | [] => none
          | m :: ms =>
            some (mkImpactRec md pg ak.1 kw (m :: ms).length
              ((collapseWS (sliceCL (lowerL pg.text) (m.1 - 100) (m.2 + 100))).take 200)))).map
          impactTriple) := by
    unfold extractImpactPage
    rw [List.map_flatMap]
  have hR : impactAllPairs.map (fun q => (pg.page_number, q.1, q.2)) =
      impact_keywords.flatMap (fun ak =>
        ak.2.map (fun kw => (pg.page_number, ak.1, kw))) := by
    unfold impactAllPairs
    rw [List.map_flatMap]
    congr 1
    funext ak
    rw [List.map_map]
    rfl
  rw [hL, hR]
  refine flatMap_sublist _ _ _ ?_
  intro ak _
  refine filterMap_map_sublist _ _ _ _ ?_
  intro kw _ b hb
  revert hb
  cases findIter (litM (lowerL kw)) (lowerL pg.text) with
  | nil => intro hb; cases hb
  | cons m ms =>
    intro hb
    cases hb
    rfl

theorem impactPage_triple_fst {md : Metadata} {pg : PageData} {r : ImpactRecord}
    (h : r ∈ extractImpactPage md pg) : (impactTriple r).1 = pg.page_number :=
  (impactPage_shape h).2.1

theorem impact_triples_nodup (pages : List PageData) (md : Metadata)
    (hnd : (pages.map PageData.page_number).Nodup) :
    ((extract_impact_areas pages md).map impactTriple).Nodup := by
  unfold extract_impact_areas
  induction pages with
  | nil => simp
  | cons pg rest ih =>
    rw [List.map_cons, List.nodup_cons] at hnd
    rw [List.flatMap_cons, List.map_append, List.nodup_append]
    refine ⟨?_, ih hnd.2, ?_⟩
    · refine List.Nodup.sublist (impactPage_triples_sublist md pg) ?_
      refine List.Nodup.map ?_ (by decide : impactAllPairs.Nodup)
      intro q1 q2 hq
      obtain ⟨x1, y1⟩ := q1
      obtain ⟨x2, y2⟩ := q2
      simpa using hq
    · intro t ht1 ht2
      rcases List.mem_map.mp ht1 with ⟨r, hr, rfl⟩
      rcases List.mem_map.mp ht2 with ⟨r', hr', ht⟩
      rcases List.mem_flatMap.mp hr' with ⟨pg', hpg', hr2⟩
      have h1 : (impactTriple r).1 = pg.page_number := impactPage_triple_fst hr
      have h2 : (impactTriple r').1 = pg'.page_number := impactPage_triple_fst hr2
      rw [ht] at h2
      apply hnd.1
      rw [← h1, h2]
      exact List.mem_map.mpr ⟨pg', hpg', rfl⟩

/-- C4: grouping the emitted impact records of a run (over pages with
distinct page numbers) by (page_number, impact_area, keyword) gives at
most one record per group; each record's occurrence_count is the number
of leftmost non-overlapping occurrences of its lowered keyword in the
lowered page text (hence at least one), and its example context is the
capped collapsed ±100 window around the first occurrence. -/
theorem impact_unique_per_triple (pages : List PageData) (md : Metadata)
    (hnd : (pages.map PageData.page_number).Nodup) :
    ((extract_impact_areas pages md).map impactTriple).Nodup ∧
    ∀ r ∈ extract_impact_areas pages md,
      1 ≤ r.occurrence_count ∧
      ∃ pg ∈ pages, r.page_number = pg.page_number ∧
        r.occurrence_count = countOccSpec (lowerL r.keyword) (lowerL pg.text) ∧
        ∃ p, firstOccSpec (lowerL r.keyword) (lowerL pg.text) = some p ∧
          leadsWith (lowerL r.keyword) ((lowerL pg.text).drop p) = true ∧
          r.example_context = (collapseWS (sliceCL (lowerL pg.text) (p - 100)
            (p + (lowerL r.keyword).length + 100))).take 200 := by
  refine ⟨impact_triples_nodup pages md hnd, ?_⟩
  intro r hr
  rcases List.mem_flatMap.mp hr with ⟨pg, hpg, hr2⟩
  rcases List.mem_flatMap.mp hr2 with ⟨ak, _, hr3⟩
  rcases List.mem_filterMap.mp hr3 with ⟨kw, _, hf⟩
  revert hf
  cases hms : findIter (litM (lowerL kw)) (lowerL pg.text) with
  | nil => intro hf; cases hf
  | cons m ms =>
    intro hf
    cases hf
    have hcnt : (m :: ms).length = countOccSpec (lowerL kw) (lowerL pg.text) := by
      rw [← hms]
      unfold findIter countOccSpec
      exact scanAux_length_countOcc _ _ _ _
    have hhead : (firstOccSpec (lowerL kw) (lowerL pg.text)).map
        (fun p => (0 + p, 0 + p + (lowerL kw).length)) = some m := by
      unfold firstOccSpec
      rw [← scanAux_head_firstOcc]
      rw [show scanAux (litM (lowerL kw)) (lowerL pg.text).length 0 (lowerL pg.text) =
        findIter (litM (lowerL kw)) (lowerL pg.text) from rfl, hms]
      rfl
    rcases Option.map_eq_some'.mp hhead with ⟨p, hp, hpm⟩
    refine ⟨by simp [mkImpactRec], pg, hpg, rfl, ?_, p, hp, ?_, ?_⟩
    · exact hcnt
    · exact firstOcc_leadsWith _ _ _ _ hp
    · have hm1 : m.1 = p := by
        rw [← hpm]
        simp
      have hm2 : m.2 = p + (lowerL kw).length := by
        rw [← hpm]
        simp
      rw [show (mkImpactRec md pg ak.1 kw (m :: ms).length
        ((collapseWS (sliceCL (lowerL pg.text) (m.1 - 100) (m.2 + 100))).take 200)).example_context =
        (collapseWS (sliceCL (lowerL pg.text) (m.1 - 100) (m.2 + 100))).take 200 from rfl]
      rw [hm1, hm2]
      rfl

/-- Witness for C4 on a page with two occurrences of water. -/
theorem impact_unique_per_triple_witness :
    (([c4page].map PageData.page_number).Nodup) ∧
    ((extract_impact_areas [c4page] c1md).map impactTriple).Nodup ∧
    ∃ r ∈ extract_impact_areas [c4page] c1md,
      1 ≤ r.occurrence_count ∧
      ∃ pg ∈ [c4page], r.page_number = pg.page_number ∧
        r.occurrence_count = countOccSpec (lowerL r.keyword) (lowerL pg.text) ∧
        ∃ p, firstOccSpec (lowerL r.keyword) (lowerL pg.text) = some p ∧
          leadsWith (lowerL r.keyword) ((lowerL pg.text).drop p) = true ∧
          r.example_context = (collapseWS (sliceCL (lowerL pg.text) (p - 100)
            (p + (lowerL r.keyword).length + 100))).take 200 := by
  have hnd : ([c4page].map PageData.page_number).Nodup := by decide
  obtain ⟨r, hh⟩ : ∃ x, (extract_impact_areas [c4page] c1md).head? = some x := ⟨_, rfl⟩
  have hmem : r ∈ extract_impact_areas [c4page] c1md := by
    refine List.mem_of_mem_head? ?_
    rw [hh]
    rfl
  have h := impact_unique_per_triple [c4page] c1md hnd
  exact ⟨hnd, h.1, r, hmem, h.2 r hmem⟩

/-! ## Round trip of the page-delimited file format (C10) -/

theorem leadsWith_append (p s : List Char) : leadsWith p (p ++ s) = true := by
  induction p with
  | nil => rfl
  | cons c cs ih => simp [leadsWith, ih]

theorem leadsWith_iff {p s : List Char} :
    leadsWith p s = true ↔ ∃ r, s = p ++ r := by
  constructor
  · intro h
    induction p generalizing s with
    | nil => exact ⟨s, rfl⟩
    | cons c cs ih =>
      cases s with
      | nil => simp [leadsWith] at h
      | cons d ds =>
        simp only [leadsWith, Bool.and_eq_true, beq_iff_eq] at h
        obtain ⟨hcd, h2⟩ := h
        subst hcd
        obtain ⟨r, hr⟩ := ih h2
        exact ⟨r, by rw [hr]; rfl⟩
  · rintro ⟨r, rfl⟩
    exact leadsWith_append p r

theorem stripPre_self (p s : List Char) : stripPre p (p ++ s) = some s := by
  unfold stripPre
  rw [if_pos (leadsWith_append p s), List.drop_left]

theorem stripPre_eq_some {p s r : List Char} (h : stripPre p s = some r) :
    s = p ++ r := by
  unfold stripPre at h
  by_cases hl : leadsWith p s = true
  · rw [if_pos hl] at h
    obtain ⟨r', rfl⟩ := leadsWith_iff.mp hl
    rw [List.drop_left] at h
    cases h
    rfl
  · rw [if_neg hl] at h
    cases h

theorem stripCh_self (c : Char) (s : List Char) : stripCh c (c :: s) = some s := by
  simp [stripCh]

theorem stripCh_eq_some {c : Char} {s r : List Char} (h : stripCh c s = some r) :
    s = c :: r := by
  cases s with
  | nil => cases h
  | cons x xs =>
    simp only [stripCh] at h
    by_cases hx : (x == c) = true
    · rw [if_pos hx] at h
      cases h
      rw [show x = c from by simpa using hx]
    · rw [if_neg hx] at h
      cases h

theorem takeWhile_digits_append {d b : List Char} (hd : ∀ c ∈ d, isDigitC c = true)
    (hb : headNotDigit b = true) : (d ++ b).takeWhile isDigitC = d := by
  induction d with
  | nil =>
    cases b with
    | nil => rfl
    | cons c cs =>
      simp only [headNotDigit, Bool.not_eq_true'] at hb
      simp [List.takeWhile_cons, hb]
  | cons x xs ih =>
    simp [List.takeWhile_cons, hd x (List.mem_cons_self _ _),
      ih (fun c hc => hd c (List.mem_cons_of_mem _ hc))]

theorem grabDigits_append {d b : List Char} (hne : d ≠ [])
    (hd : ∀ c ∈ d, isDigitC c = true) (hb : headNotDigit b = true) :
    grabDigits (d ++ b) = some (digitsToNat d, b) := by
  unfold grabDigits
  rw [takeWhile_digits_append hd hb]
  rw [if_neg (by simpa using hne)]
  rw [List.drop_left]

theorem headNotDigit_dropWhile (l : List Char) :
    headNotDigit (l.dropWhile isDigitC) = true := by
  induction l with
  | nil => rfl
  | cons c cs ih =>
    by_cases hc : isDigitC c = true
    · simpa [List.dropWhile_cons, hc] using ih
    · simp [List.dropWhile_cons, hc, headNotDigit]

theorem grabDigits_eq_some {s : List Char} {n : Nat} {r : List Char}
    (h : grabDigits s = some (n, r)) :
    ∃ d, d ≠ [] ∧ (∀ c ∈ d, isDigitC c = true) ∧ s = d ++ r ∧
      headNotDigit r = true ∧ n = digitsToNat d := by
  unfold grabDigits at h
  by_cases he : (s.takeWhile isDigitC).isEmpty = true
  · rw [if_pos he] at h
    cases h
  · rw [if_neg he] at h
    obtain ⟨hn, hr⟩ : digitsToNat (s.takeWhile isDigitC) = n ∧
        s.drop (s.takeWhile isDigitC).length = r := by
      simpa using h
    have hsplit : s.takeWhile isDigitC ++ s.dropWhile isDigitC = s :=
      List.takeWhile_append_dropWhile isDigitC s
    have hgen : ∀ (a b : List Char), a ++ b = s → s.drop a.length = b := by
      intro a b hab
      rw [← hab, List.drop_left]
    have hdrop : s.drop (s.takeWhile isDigitC).length = s.dropWhile isDigitC :=
      hgen _ _ hsplit
    refine ⟨s.takeWhile isDigitC, by simpa using he, ?_, ?_, ?_, hn.symm⟩
    · intro c hc
      exact List.mem_takeWhile_imp hc
    · rw [← hr, hdrop]
      exact hsplit.symm
    · rw [← hr, hdrop]
      exact headNotDigit_dropWhile s

theorem digit_char_facts :
    ∀ m, m < 10 → isDigitC (Char.ofNat (48 + m)) = true ∧
      (Char.ofNat (48 + m)).toNat - 48 = m := by
  decide

theorem natCharsAux_spec :
    ∀ (f n : Nat), n < f →
      natCharsAux f n ≠ [] ∧ (∀ c ∈ natCharsAux f n, isDigitC c = true) ∧
        digitsToNat (natCharsAux f n) = n := by
  intro f
  induction f with
  | zero => intro n h; omega
  | succ f ih =>
    intro n h
    by_cases h10 : n < 10
    · rw [natCharsAux, if_pos h10]
      refine ⟨by simp, ?_, ?_⟩
      · intro c hc
        rw [List.mem_singleton.mp hc]
        exact (digit_char_facts n h10).1
      · unfold digitsToNat
        simpa using (digit_char_facts n h10).2
    · rw [natCharsAux, if_neg h10]
      have hrec := ih (n / 10) (by omega)
      refine ⟨by simp, ?_, ?_⟩
      · intro c hc
        rcases List.mem_append.mp hc with hc | hc
        · exact hrec.2.1 c hc
        · rw [List.mem_singleton.mp hc]
          exact (digit_char_facts (n % 10) (by omega)).1
      · unfold digitsToNat
        rw [List.foldl_append]
        have hfold : List.foldl (fun n c => n * 10 + (c.toNat - 48)) 0
            (natCharsAux f (n / 10)) = n / 10 := hrec.2.2
        rw [hfold]
        simp only [List.foldl]
        rw [(digit_char_facts (n % 10) (by omega)).2]
        omega

theorem natChars_spec (n : Nat) :
    natChars n ≠ [] ∧ (∀ c ∈ natChars n, isDigitC c = true) ∧
      digitsToNat (natChars n) = n :=
  natCharsAux_spec (n + 1) n (by omega)

theorem matchDelimAt_nil : matchDelimAt [] = none := by
  decide

theorem matchDelimAt_cons_ne {c : Char} (s : List Char) (h : ¬ c = '=') :
    matchDelimAt (c :: s) = none := by
  have hl : leadsWith EQS (c :: s) = false := by
    rw [show EQS = '=' :: List.replicate 79 '=' from rfl]
    show (('=' == c) && leadsWith (List.replicate 79 '=') s) = false
    have he : ('=' == c) = false := by
      simp only [beq_eq_false_iff_ne, ne_eq]
      intro he
      exact h he.symm
    rw [he]
    rfl
  unfold matchDelimAt
  rw [show stripPre EQS (c :: s) = none from by
    unfold stripPre
    rw [if_neg (by simp [hl])]]
  rfl

theorem headNotDigit_ofSep_append (z : List Char) :
    headNotDigit (ofSep ++ z) = true := rfl

theorem matchDelimAt_core {d1 d2 : List Char} (r : List Char)
    (h1 : d1 ≠ []) (hd1 : ∀ c ∈ d1, isDigitC c = true)
    (h2 : d2 ≠ []) (hd2 : ∀ c ∈ d2, isDigitC c = true) :
    matchDelimAt (delimCore d1 d2 ++ r) =
      some (digitsToNat d1, digitsToNat d2, r) := by
  have e1 : delimCore d1 d2 ++ r =
      EQS ++ '\n' :: (pgOpen ++ (d1 ++ (ofSep ++ (d2 ++
        (']' :: '\n' :: (EQS ++ r)))))) := by
    unfold delimCore rbChars
    simp [List.append_assoc]
  rw [e1]
  unfold matchDelimAt
  rw [stripPre_self, Option.some_bind, stripCh_self, Option.some_bind,
    stripPre_self, Option.some_bind,
    grabDigits_append h1 hd1 (headNotDigit_ofSep_append _), Option.some_bind]
  rw [show (digitsToNat d1, ofSep ++ (d2 ++ (']' :: '\n' :: (EQS ++ r)))).2 =
    ofSep ++ (d2 ++ (']' :: '\n' :: (EQS ++ r))) from rfl]
  rw [stripPre_self, Option.some_bind,
    grabDigits_append h2 hd2 (by rfl), Option.some_bind]
  rw [show (digitsToNat d2, ']' :: '\n' :: (EQS ++ r)).2 =
    ']' :: '\n' :: (EQS ++ r) from rfl]
  rw [stripCh_self, Option.some_bind, stripCh_self, Option.some_bind,
    stripPre_self]
  rfl

theorem matchDelimAt_eq_some {s : List Char} {a b : Nat} {r : List Char}
    (h : matchDelimAt s = some (a, b, r)) :
    ∃ d1 d2, d1 ≠ [] ∧ d2 ≠ [] ∧ (∀ c ∈ d1, isDigitC c = true) ∧
      (∀ c ∈ d2, isDigitC c = true) ∧ a = digitsToNat d1 ∧ b = digitsToNat d2 ∧
      s = delimCore d1 d2 ++ r := by
  unfold matchDelimAt at h
  cases e1 : stripPre EQS s with
  | none => rw [e1, Option.none_bind] at h; cases h
  | some s1 =>
  rw [e1, Option.some_bind] at h
  cases e2 : stripCh '\n' s1 with
  | none => rw [e2, Option.none_bind] at h; cases h
  | some s2 =>
  rw [e2, Option.some_bind] at h
  cases e3 : stripPre pgOpen s2 with
  | none => rw [e3, Option.none_bind] at h; cases h
  | some s3 =>
  rw [e3, Option.some_bind] at h
  cases e4 : grabDigits s3 with
  | none => rw [e4, Option.none_bind] at h; cases h
  | some p1 =>
  rw [e4, Option.some_bind] at h
  cases e5 : stripPre ofSep p1.2 with
  | none => rw [e5, Option.none_bind] at h; cases h
  | some s5 =>
  rw [e5, Option.some_bind] at h
  cases e6 : grabDigits s5 with
  | none => rw [e6, Option.none_bind] at h; cases h
  | some p2 =>
  rw [e6, Option.some_bind] at h
  cases e7 : stripCh ']' p2.2 with
  | none => rw [e7, Option.none_bind] at h; cases h
  | some s7 =>
  rw [e7, Option.some_bind] at h
  cases e8 : stripCh '\n' s7 with
  | none => rw [e8, Option.none_bind] at h; cases h
  | some s8 =>
  rw [e8, Option.some_bind] at h
  cases e9 : stripPre EQS s8 with
  | none => rw [e9] at h; cases h
  | some s9 =>
  rw [e9] at h
  obtain ⟨ha, hb, hr⟩ : p1.1 = a ∧ p2.1 = b ∧ s9 = r := by
    simpa using h
  obtain ⟨d1, hd1ne, hd1d, hs3, _, hn1⟩ := grabDigits_eq_some (by
    rw [e4, show (p1.1, p1.2) = p1 from rfl] : grabDigits s3 = some (p1.1, p1.2))
  obtain ⟨d2, hd2ne, hd2d, hs5, _, hn2⟩ := grabDigits_eq_some (by
    rw [e6, show (p2.1, p2.2) = p2 from rfl] : grabDigits s5 = some (p2.1, p2.2))
  refine ⟨d1, d2, hd1ne, hd2ne, hd1d, hd2d, by rw [← ha, hn1], by rw [← hb, hn2], ?_⟩
  rw [stripPre_eq_some e1, stripCh_eq_some e2, stripPre_eq_some e3, hs3,
    stripPre_eq_some e5, hs5, stripCh_eq_some e7, stripCh_eq_some e8,
    stripPre_eq_some e9, hr]
  unfold delimCore rbChars
  simp [List.append_assoc]

theorem delimCore_getLast (d1 d2 : List Char) :
    (delimCore d1 d2).getLast? = some '=' := by
  have e : delimCore d1 d2 = (EQS ++ '\n' :: rbChars d1 d2 ++ ['\n']) ++ EQS := by
    unfold delimCore
    simp [List.append_assoc]
  rw [e, List.getLast?_append_of_ne_nil _ (by decide : EQS ≠ [])]
  decide

theorem delimCore_head (d1 d2 : List Char) :
    ∃ t, delimCore d1 d2 = '=' :: t := by
  refine ⟨List.replicate 79 '=' ++ '\n' :: rbChars d1 d2 ++ '\n' :: EQS, ?_⟩
  unfold delimCore
  rw [show EQS = '=' :: List.replicate 79 '=' from rfl]
  rfl

theorem count_nl_digits {d : List Char} (hd : ∀ c ∈ d, isDigitC c = true) :
    d.count '\n' = 0 := by
  rw [List.count_eq_zero]
  intro hmem
  have := hd '\n' hmem
  cases this

theorem delimCore_count_nl {d1 d2 : List Char}
    (hd1 : '\n' ∉ d1) (hd2 : '\n' ∉ d2) :
    (delimCore d1 d2).count '\n' = 2 := by
  unfold delimCore rbChars
  simp [List.count_append, List.count_cons, List.count_eq_zero.mpr hd1,
    List.count_eq_zero.mpr hd2]
  decide

theorem nl_not_mem_of_digits {d : List Char} (hd : ∀ c ∈ d, isDigitC c = true) :
    '\n' ∉ d := by
  intro hmem
  cases hd '\n' hmem

theorem append_eq_split {A B u w : List Char} (h : A ++ B = u ++ w)
    (hl : u.length ≤ A.length) : ∃ v, A = u ++ v ∧ w = v ++ B := by
  have hu : u = A.take u.length := by
    have h1 : (A ++ B).take u.length = A.take u.length :=
      List.take_append_of_le_length hl
    rw [h, List.take_left] at h1
    exact h1
  have hA : A = u ++ A.drop u.length := by
    conv_lhs => rw [← List.take_append_drop u.length A]
    rw [← hu]
  refine ⟨A.drop u.length, hA, ?_⟩
  have h2 : u ++ w = u ++ (A.drop u.length ++ B) := by
    rw [← List.append_assoc, ← hA]
    exact h.symm
  exact List.append_cancel_left h2

theorem suffix_ends_nlnl {W0 u : List Char} (h : ∃ z, z ++ u = W0 ++ ['\n', '\n'])
    (hu : 2 ≤ u.length) : ∃ u0, u = u0 ++ ['\n', '\n'] := by
  obtain ⟨z, hz⟩ := h
  have hlen : z.length ≤ W0.length := by
    have := congrArg List.length hz
    simp [List.length_append] at this
    omega
  obtain ⟨v, _, hv2⟩ := append_eq_split hz.symm hlen
  exact ⟨v, hv2⟩

theorem getLast_of_all_eq {w : List Char} {c : Char} (hne : w ≠ [])
    (hall : ∀ x ∈ w, x = c) : w.getLast? = some c := by
  rw [List.getLast?_eq_getLast w hne]
  exact congrArg some (hall _ (List.getLast_mem hne))

theorem rbChars_getLast (d1 d2 : List Char) :
    (rbChars d1 d2).getLast? = some ']' := by
  have e : rbChars d1 d2 = (pgOpen ++ d1 ++ ofSep ++ d2) ++ [']'] := by
    unfold rbChars
    simp [List.append_assoc]
  rw [e, List.getLast?_append_of_ne_nil _ (by simp)]
  rfl

theorem noDelim_of_no_eq {W : List Char} (h : '=' ∉ W) : noDelim W := by
  intro p
  cases hd : W.drop p with
  | nil => exact matchDelimAt_nil
  | cons c cs =>
    refine matchDelimAt_cons_ne _ ?_
    intro hc
    subst hc
    exact h ((List.drop_suffix p W).subset (hd ▸ List.mem_cons_self '=' cs))

theorem noDelim_wrap {t tail : List Char} (hnd : noDelim t)
    (htail : tail = ['\n'] ∨ tail = ['\n', '\n']) :
    noDelim ('\n' :: t ++ tail) := by
  intro p
  cases p with
  | zero =>
    rw [List.drop_zero]
    exact matchDelimAt_cons_ne _ (by decide)
  | succ q =>
    rw [show ('\n' :: t ++ tail).drop (q + 1) = (t ++ tail).drop q from rfl]
    by_cases hq : q < t.length
    · rw [List.drop_append_of_le_length (Nat.le_of_lt hq)]
      cases hm : matchDelimAt (t.drop q ++ tail) with
      | none => rfl
      | some x =>
        exfalso
        obtain ⟨a, b, r⟩ := x
        obtain ⟨d1, d2, h1, h2, hd1, hd2, _, _, hs⟩ := matchDelimAt_eq_some hm
        by_cases hlen : (delimCore d1 d2).length ≤ (t.drop q).length
        · obtain ⟨v, hv1, _⟩ := append_eq_split hs hlen
          have hc := hnd q
          rw [hv1, matchDelimAt_core v h1 hd1 h2 hd2] at hc
          cases hc
        · push_neg at hlen
          have hlen2 := congrArg List.length hs
          simp only [List.length_append] at hlen2
          rcases htail with rfl | rfl
          · have hr0 : r = [] := by
              refine List.length_eq_zero.mp ?_
              simp only [List.length_cons, List.length_nil] at hlen2
              omega
            subst hr0
            rw [List.append_nil] at hs
            have hL : (t.drop q ++ ['\n']).getLast? = some '\n' := by
              rw [List.getLast?_append_of_ne_nil _ (by simp)]
              rfl
            rw [hs, delimCore_getLast] at hL
            exact absurd (Option.some.inj hL) (by decide)
          · have hrl : r.length ≤ 1 := by
              simp only [List.length_cons, List.length_nil] at hlen2
              omega
            cases r with
            | nil =>
              rw [List.append_nil] at hs
              have hL : (t.drop q ++ ['\n', '\n']).getLast? = some '\n' := by
                rw [List.getLast?_append_of_ne_nil _ (by simp)]
                rfl
              rw [hs, delimCore_getLast] at hL
              exact absurd (Option.some.inj hL) (by decide)
            | cons c1 r1 =>
              have hr1 : r1 = [] := by
                refine List.length_eq_zero.mp ?_
                simp only [List.length_cons] at hrl
                omega
              subst hr1
              have hc1 : c1 = '\n' := by
                have hL : (t.drop q ++ ['\n', '\n']).getLast? = some '\n' := by
                  rw [List.getLast?_append_of_ne_nil _ (by simp)]
                  rfl
                rw [hs, List.getLast?_append_of_ne_nil _ (by simp)] at hL
                have h6 : ('\n' : Char) = c1 := by simpa using hL.symm
                exact h6.symm
              subst hc1
              have hcancel : t.drop q ++ ['\n'] = delimCore d1 d2 := by
                have hs2 : (t.drop q ++ ['\n']) ++ ['\n'] = delimCore d1 d2 ++ ['\n'] := by
                  rw [List.append_assoc]
                  simpa using hs
                exact List.append_cancel_right hs2
              have hL : (t.drop q ++ ['\n']).getLast? = some '\n' := by
                rw [List.getLast?_append_of_ne_nil _ (by simp)]
                rfl
              rw [hcancel, delimCore_getLast] at hL
              exact absurd (Option.some.inj hL) (by decide)
    · push_neg at hq
      rw [show q = t.length + (q - t.length) from by omega, List.drop_append]
      cases hd : tail.drop (q - t.length) with
      | nil => exact matchDelimAt_nil
      | cons c cs =>
        refine matchDelimAt_cons_ne _ ?_
        intro hc
        subst hc
        have hmem : '=' ∈ tail :=
          (List.drop_suffix _ tail).subset (hd ▸ List.mem_cons_self '=' cs)
        rcases htail with rfl | rfl
        · simp at hmem
        · simp at hmem

theorem rbChars_ne_nil (d1 d2 : List Char) : rbChars d1 d2 ≠ [] := by
  intro h
  have h2 := congrArg List.length h
  simp [rbChars, List.length_append] at h2

/-- No match of the delimiter pattern starts inside a region that ends
with two newlines, contains no match itself, and is followed by a real
delimiter: any such match would have to straddle the region boundary,
which the shape of the delimiter rules out. -/
theorem ns_region {W W0 : List Char} (hW : W = W0 ++ ['\n', '\n'])
    (hnd : noDelim W) (e1 e2 : List Char) (X : List Char) :
    ∀ k, k < W.length →
      matchDelimAt ((W ++ (delimCore e1 e2 ++ X)).drop k) = none := by
  intro k hk
  rw [List.drop_append_of_le_length (Nat.le_of_lt hk)]
  cases hm : matchDelimAt (W.drop k ++ (delimCore e1 e2 ++ X)) with
  | none => rfl
  | some x =>
  exfalso
  obtain ⟨a, b, r⟩ := x
  obtain ⟨d1, d2, hne1, hne2, hdig1, hdig2, _, _, hs⟩ := matchDelimAt_eq_some hm
  have hune : W.drop k ≠ [] := by
    intro hnil
    have hl0 := congrArg List.length hnil
    rw [List.length_drop] at hl0
    simp at hl0
    omega
  have hne0 : (W.drop k).length ≠ 0 := fun h0 => hune (List.length_eq_zero.mp h0)
  by_cases hlen : (delimCore d1 d2).length ≤ (W.drop k).length
  · obtain ⟨v, hv1, _⟩ := append_eq_split hs hlen
    have hc := hnd k
    rw [hv1, matchDelimAt_core v hne1 hdig1 hne2 hdig2] at hc
    cases hc
  · push_neg at hlen
    obtain ⟨v, hv1, hv2⟩ := append_eq_split hs.symm (Nat.le_of_lt hlen)
    have hvlen : (W.drop k).length + v.length = (delimCore d1 d2).length := by
      have h8 := congrArg List.length hv1
      rw [List.length_append] at h8
      omega
    by_cases hu1 : (W.drop k).length = 1
    · have hlastW : (W.drop k).getLast? = some '\n' := by
        have h1 : W.getLast? = some '\n' := by
          rw [hW, List.getLast?_append_of_ne_nil _ (by simp)]
          rfl
        rw [show W = W.take k ++ W.drop k from (List.take_append_drop k W).symm,
          List.getLast?_append_of_ne_nil _ hune] at h1
        exact h1
      obtain ⟨c0, hc0⟩ : ∃ c0, W.drop k = [c0] := by
        cases hdk : W.drop k with
        | nil => exact absurd hdk hune
        | cons c0 cs =>
          cases cs with
          | nil => exact ⟨c0, rfl⟩
          | cons c1 cs1 =>
            rw [hdk] at hu1
            simp at hu1
      rw [hc0] at hlastW
      have hc0nl : c0 = '\n' := by simpa using hlastW
      obtain ⟨tD, htD⟩ := delimCore_head d1 d2
      rw [hc0, hc0nl, htD] at hv1
      simp at hv1
    · have hu2 : 2 ≤ (W.drop k).length := by omega
      obtain ⟨u0, hu0⟩ := suffix_ends_nlnl
        ⟨W.take k, by rw [List.take_append_drop]; exact hW⟩ hu2
      have hcD : (delimCore d1 d2).count '\n' = 2 :=
        delimCore_count_nl (nl_not_mem_of_digits hdig1) (nl_not_mem_of_digits hdig2)
      have hcu : 2 ≤ (W.drop k).count '\n' := by
        rw [hu0, List.count_append]
        have h2 : (['\n', '\n'] : List Char).count '\n' = 2 := by decide
        omega
      have hcsum : (W.drop k).count '\n' + v.count '\n' = 2 := by
        have h7 := congrArg (fun l : List Char => l.count '\n') hv1
        simp only [List.count_append] at h7
        rw [hcD] at h7
        omega
      have hv0 : '\n' ∉ v := List.count_eq_zero.mp (by omega)
      rcases le_or_lt v.length (delimCore e1 e2).length with hvle | hvgt
      · obtain ⟨v2, hv21, _⟩ := append_eq_split hv2 hvle
        have hEQlen : (EQS : List Char).length = 80 := by decide
        have hv80 : v.length ≤ 80 := by
          by_contra hgt
          push_neg at hgt
          have he : delimCore e1 e2 =
              (EQS ++ ['\n']) ++ (rbChars e1 e2 ++ '\n' :: EQS) := by
            unfold delimCore
            simp [List.append_assoc]
          have h81 : (EQS ++ ['\n'] : List Char).length ≤ v.length := by
            rw [List.length_append, hEQlen]
            simp
            omega
          obtain ⟨v4, hv41, _⟩ :=
            append_eq_split (hv21.symm.trans he) h81
          apply hv0
          rw [hv41]
          simp
        have hvall : ∀ c ∈ v, c = '=' := by
          have heq : (EQS : List Char) ++ ('\n' :: (rbChars e1 e2 ++ '\n' :: EQS)) =
              v ++ v2 := by
            rw [← hv21]
            rfl
          have h80 : v.length ≤ (EQS : List Char).length := by
            rw [hEQlen]
            exact hv80
          obtain ⟨w', hw1, _⟩ := append_eq_split heq h80
          intro c hc
          have hcm : c ∈ (List.replicate 80 '=' : List Char) := by
            rw [show (List.replicate 80 '=' : List Char) = EQS from rfl, hw1]
            exact List.mem_append_left _ hc
          exact List.eq_of_mem_replicate hcm
        have hD'e : delimCore d1 d2 =
            (EQS ++ '\n' :: rbChars d1 d2 ++ ['\n']) ++ EQS := by
          unfold delimCore
          simp [List.append_assoc]
        have hpre_len :
            (EQS ++ '\n' :: rbChars d1 d2 ++ ['\n'] : List Char).length ≤
              (W.drop k).length := by
          have h9 := congrArg List.length hD'e
          rw [List.length_append, hEQlen] at h9
          omega
        obtain ⟨w, hw1, hw2⟩ := append_eq_split (hv1.symm.trans hD'e) hpre_len
        by_cases hw0 : w = []
        · subst hw0
          rw [List.append_nil] at hw1
          rw [hu0] at hw1
          have hs2 : (u0 ++ ['\n']) ++ ['\n'] =
              (EQS ++ '\n' :: rbChars d1 d2) ++ ['\n'] := by
            rw [List.append_assoc, List.append_assoc]
            exact hw1
          have hcc : u0 ++ ['\n'] = EQS ++ '\n' :: rbChars d1 d2 :=
            List.append_cancel_right hs2
          have hL1 : (u0 ++ ['\n']).getLast? = some '\n' := by
            rw [List.getLast?_append_of_ne_nil _ (by simp)]
            rfl
          have hrb : ('\n' :: rbChars d1 d2 : List Char).getLast? = some ']' := by
            rw [show ('\n' :: rbChars d1 d2 : List Char) =
              ['\n'] ++ rbChars d1 d2 from rfl]
            rw [List.getLast?_append_of_ne_nil _ (rbChars_ne_nil d1 d2)]
            exact rbChars_getLast d1 d2
          have hL2 : (EQS ++ '\n' :: rbChars d1 d2).getLast? = some ']' := by
            rw [List.getLast?_append_of_ne_nil _ (by simp)]
            exact hrb
          rw [hcc, hL2] at hL1
          exact absurd (Option.some.inj hL1) (by decide)
        · have hwall : ∀ c ∈ w, c = '=' := by
            intro c hc
            have hcm : c ∈ (List.replicate 80 '=' : List Char) := by
              rw [show (List.replicate 80 '=' : List Char) = EQS from rfl, hw2]
              exact List.mem_append_left _ hc
            exact List.eq_of_mem_replicate hcm
          have hL1 : (W.drop k).getLast? = some '=' := by
            rw [hw1, List.getLast?_append_of_ne_nil _ hw0]
            exact getLast_of_all_eq hw0 hwall
          have hL2 : (W.drop k).getLast? = some '\n' := by
            rw [hu0, List.getLast?_append_of_ne_nil _ (by simp)]
            rfl
          rw [hL1] at hL2
          exact absurd (Option.some.inj hL2) (by decide)
      · obtain ⟨v', hv'1, _⟩ := append_eq_split hv2.symm (Nat.le_of_lt hvgt)
        apply hv0
        rw [hv'1]
        refine List.mem_append_left _ ?_
        unfold delimCore
        exact List.mem_append_right _ (List.mem_cons_self _ _)

theorem not_mem_append {c : Char} {a b : List Char} (ha : c ∉ a) (hb : c ∉ b) :
    c ∉ a ++ b := by
  intro h
  rcases List.mem_append.mp h with h | h
  · exact ha h
  · exact hb h

theorem not_mem_cons {c d : Char} {l : List Char} (hne : c ≠ d) (hl : c ∉ l) :
    c ∉ d :: l := by
  intro h
  rcases List.mem_cons.mp h with h | h
  · exact hne h
  · exact hl h

theorem eq_not_mem_natChars (n : Nat) : '=' ∉ natChars n := by
  intro h
  exact absurd ((natChars_spec n).2.1 '=' h) (by decide)

theorem eq_not_mem_header {src yr dt date : List Char} (n : Nat)
    (hs : '=' ∉ src) (hy : '=' ∉ yr) (hd : '=' ∉ dt) (hda : '=' ∉ date) :
    '=' ∉ headerChars src yr dt date n := by
  unfold headerChars
  refine not_mem_append ?_ (by decide)
  refine not_mem_append ?_ (by decide)
  refine not_mem_append ?_ (not_mem_cons (by decide) (not_mem_append (by decide) hda))
  refine not_mem_append ?_ (not_mem_cons (by decide)
    (not_mem_append (by decide) (eq_not_mem_natChars n)))
  refine not_mem_append ?_ (not_mem_cons (by decide) (not_mem_append (by decide) hd))
  refine not_mem_append ?_ (not_mem_cons (by decide) (not_mem_append (by decide) hy))
  refine not_mem_append ?_ (not_mem_cons (by decide) (not_mem_append (by decide) hs))
  refine not_mem_append ?_ (by decide)
  exact not_mem_append (by decide) (by decide)

theorem headerChars_ends (src yr dt date : List Char) (n : Nat) :
    headerChars src yr dt date n =
      (HSH ++ '\n' :: headerTitle ++ '\n' :: HSH ++ '\n' ::
       ("Source File: ".toList ++ src) ++ '\n' ::
       ("Year: ".toList ++ yr) ++ '\n' ::
       ("Document Type: ".toList ++ dt) ++ '\n' ::
       ("Total Pages: ".toList ++ natChars n) ++ '\n' ::
       ("Extraction Date: ".toList ++ date) ++ '\n' :: HSH) ++ ['\n', '\n'] := by
  unfold headerChars
  simp [List.append_assoc]

theorem ends_nlnl_snoc {H W0 : List Char} (h : H = W0 ++ ['\n', '\n']) :
    H ++ ['\n'] = (W0 ++ ['\n']) ++ ['\n', '\n'] := by
  rw [h]
  simp [List.append_assoc]

theorem findFirst_none : ∀ (f : Nat) {s : List Char}, noDelim s →
    findFirst f s = none := by
  intro f
  induction f with
  | zero => intro s _; rfl
  | succ f ih =>
    intro s h
    have h0 := h 0
    rw [List.drop_zero] at h0
    cases s with
    | nil => rw [findFirst, h0]
    | cons c cs =>
      rw [findFirst, h0, ih (fun p => h (p + 1))]
      rfl

theorem findFirst_split : ∀ (W : List Char) {T : List Char} {a b : Nat} {r : List Char},
    (∀ k, k < W.length → matchDelimAt ((W ++ T).drop k) = none) →
    matchDelimAt T = some (a, b, r) →
    ∀ f, W.length < f → findFirst f (W ++ T) = some (W, a, b, r) := by
  intro W
  induction W with
  | nil =>
    intro T a b r _ hT f hf
    cases f with
    | zero => omega
    | succ f =>
      rw [List.nil_append]
      cases T with
      | nil =>
        rw [matchDelimAt_nil] at hT
        cases hT
      | cons c cs =>
        rw [findFirst, hT]
  | cons c W ih =>
    intro T a b r hW hT f hf
    cases f with
    | zero => simp at hf
    | succ f =>
      have h0 := hW 0 (by simp)
      rw [List.drop_zero, List.cons_append] at h0
      have hW' : ∀ k, k < W.length → matchDelimAt ((W ++ T).drop k) = none := by
        intro k hk
        exact hW (k + 1) (by simp only [List.length_cons]; omega)
      have hf' : W.length < f := by
        simp only [List.length_cons] at hf
        omega
      rw [List.cons_append, findFirst, h0, ih hW' hT f hf']
      rfl

theorem noDelimB_imp : ∀ {t : List Char}, noDelimB t = true → noDelim t := by
  intro t
  induction t with
  | nil =>
    intro _ p
    rw [List.drop_nil]
    exact matchDelimAt_nil
  | cons c cs ih =>
    intro h p
    rw [noDelimB, Bool.and_eq_true] at h
    cases p with
    | zero =>
      rw [List.drop_zero]
      exact Option.isNone_iff_eq_none.mp h.1
    | succ q => exact ih h.2 q

theorem pageBlocks_length_le (n : Nat) :
    ∀ (ts : List (List Char)) (i : Nat), ts.length ≤ (pageBlocks n i ts).length := by
  intro ts
  induction ts with
  | nil => intro i; simp [pageBlocks]
  | cons t rest ih =>
    intro i
    rw [pageBlocks]
    simp only [List.length_append, List.length_cons]
    have := ih (i + 1)
    omega

theorem pageTriples_length (n : Nat) :
    ∀ (ts : List (List Char)) (i : Nat), (pageTriples n i ts).length = ts.length := by
  intro ts
  induction ts with
  | nil => intro i; rfl
  | cons t rest ih =>
    intro i
    cases rest with
    | nil => rfl
    | cons t2 r2 =>
      rw [pageTriples]
      simp only [List.length_cons]
      rw [ih (i + 1)]
      rfl

theorem pageTriples_get (n : Nat) :
    ∀ (ts : List (List Char)) (i0 j : Nat) (hj : j < ts.length),
      ∃ e, (pageTriples n i0 ts).get? j = some (i0 + j, n, e) ∧
        (e = '\n' :: ts.get ⟨j, hj⟩ ++ ['\n'] ∨
         e = '\n' :: ts.get ⟨j, hj⟩ ++ ['\n', '\n']) := by
  intro ts
  induction ts with
  | nil => intro i0 j hj; simp at hj
  | cons t rest ih =>
    intro i0 j hj
    cases j with
    | zero =>
      cases rest with
      | nil =>
        refine ⟨'\n' :: t ++ ['\n'], ?_, Or.inl rfl⟩
        simp [pageTriples]
      | cons t2 r2 =>
        refine ⟨'\n' :: t ++ ['\n', '\n'], ?_, Or.inr rfl⟩
        simp [pageTriples]
    | succ q =>
      cases rest with
      | nil => simp at hj
      | cons t2 r2 =>
        have hq : q < (t2 :: r2).length := by
          simp only [List.length_cons] at hj
          simp only [List.length_cons]
          omega
        obtain ⟨e, he1, he2⟩ := ih (i0 + 1) q hq
        refine ⟨e, ?_, ?_⟩
        · rw [pageTriples, List.get?_cons_succ, he1,
            show i0 + 1 + q = i0 + (q + 1) from by omega]
        · have hg : (t :: t2 :: r2).get ⟨q + 1, hj⟩ = (t2 :: r2).get ⟨q, hq⟩ := rfl
          rw [hg]
          exact he2

theorem delimChars_eq_core (i n : Nat) :
    delimChars i n = delimCore (natChars i) (natChars n) := by
  unfold delimChars delimCore rbChars
  simp [List.append_assoc]

theorem pagesRec_blocks (n : Nat) :
    ∀ (ts : List (List Char)) (f i : Nat) (t : List Char),
      noDelim t → (∀ u ∈ ts, noDelim u) → ts.length < f →
      pagesRec f i n ('\n' :: t ++ '\n' :: pageBlocks n (i + 1) ts) =
        pageTriples n i (t :: ts) := by
  intro ts
  induction ts with
  | nil =>
    intro f i t ht _ hf
    cases f with
    | zero => omega
    | succ f =>
      rw [show pageBlocks n (i + 1) ([] : List (List Char)) = [] from rfl]
      rw [pagesRec, findFirst_none _ (noDelim_wrap ht (Or.inl rfl))]
      rfl
  | cons t2 rest ih =>
    intro f i t ht hts hf
    cases f with
    | zero => simp at hf
    | succ f =>
      have hr : '\n' :: t ++ '\n' :: pageBlocks n (i + 1) (t2 :: rest) =
          ('\n' :: t ++ ['\n', '\n']) ++
            (delimCore (natChars (i + 1)) (natChars n) ++
              ('\n' :: t2 ++ '\n' :: pageBlocks n (i + 1 + 1) rest)) := by
        rw [pageBlocks, markerChars, delimChars_eq_core]
        simp [List.append_assoc]
      rw [hr, pagesRec]
      have hns := ns_region (show ('\n' :: t ++ ['\n', '\n'] : List Char) =
          ('\n' :: t) ++ ['\n', '\n'] from rfl)
        (noDelim_wrap ht (Or.inr rfl)) (natChars (i + 1)) (natChars n)
        ('\n' :: t2 ++ '\n' :: pageBlocks n (i + 1 + 1) rest)
      have hspec1 := natChars_spec (i + 1)
      have hspecn := natChars_spec n
      have hT := matchDelimAt_core ('\n' :: t2 ++ '\n' :: pageBlocks n (i + 1 + 1) rest)
        hspec1.1 hspec1.2.1 hspecn.1 hspecn.2.1
      rw [hspec1.2.2, hspecn.2.2] at hT
      obtain ⟨tD, htD⟩ := delimCore_head (natChars (i + 1)) (natChars n)
      have hfuel : ('\n' :: t ++ ['\n', '\n'] : List Char).length <
          (('\n' :: t ++ ['\n', '\n']) ++
            (delimCore (natChars (i + 1)) (natChars n) ++
              ('\n' :: t2 ++ '\n' :: pageBlocks n (i + 1 + 1) rest))).length := by
        simp only [List.length_append, List.length_cons, htD]
        omega
      rw [findFirst_split _ hns hT _ hfuel]
      have hf' : rest.length < f := by
        simp only [List.length_cons] at hf
        omega
      show (i, n, '\n' :: t ++ ['\n', '\n']) ::
          pagesRec f (i + 1) n ('\n' :: t2 ++ '\n' :: pageBlocks n (i + 1 + 1) rest) =
        pageTriples n i (t :: t2 :: rest)
      rw [ih f (i + 1) t2 (hts t2 (List.mem_cons_self _ _))
        (fun u hu => hts u (List.mem_cons_of_mem _ hu)) hf']
      rfl

theorem parse_save_eq (src yr dt date : List Char) (t1 : List Char)
    (rest : List (List Char))
    (hsrc : '=' ∉ src) (hyr : '=' ∉ yr) (hdt : '=' ∉ dt) (hdate : '=' ∉ date)
    (hnd1 : noDelim t1) (hndr : ∀ u ∈ rest, noDelim u) :
    parse_text_file (save_extracted_text src yr dt date (t1 :: rest)) =
      (extract_metadata_from_header (save_extracted_text src yr dt date (t1 :: rest)),
       (pageTriples (t1 :: rest).length 1 (t1 :: rest)).map
         (fun q => { page_number := q.1, total_pages := q.2.1, text := q.2.2 })) := by
  have hcontent : save_extracted_text src yr dt date (t1 :: rest) =
      (headerChars src yr dt date (t1 :: rest).length ++ ['\n']) ++
        (delimCore (natChars 1) (natChars (t1 :: rest).length) ++
          ('\n' :: t1 ++ '\n' :: pageBlocks (t1 :: rest).length (1 + 1) rest)) := by
    unfold save_extracted_text
    rw [pageBlocks, markerChars, delimChars_eq_core]
    simp [List.append_assoc]
  have hHeq := ends_nlnl_snoc (headerChars_ends src yr dt date (t1 :: rest).length)
  have hndW : noDelim (headerChars src yr dt date (t1 :: rest).length ++ ['\n']) :=
    noDelim_of_no_eq (not_mem_append
      (eq_not_mem_header (t1 :: rest).length hsrc hyr hdt hdate) (by decide))
  have hns := ns_region hHeq hndW (natChars 1) (natChars (t1 :: rest).length)
    ('\n' :: t1 ++ '\n' :: pageBlocks (t1 :: rest).length (1 + 1) rest)
  have hspec1 := natChars_spec 1
  have hspecn := natChars_spec (t1 :: rest).length
  have hT := matchDelimAt_core
    ('\n' :: t1 ++ '\n' :: pageBlocks (t1 :: rest).length (1 + 1) rest)
    hspec1.1 hspec1.2.1 hspecn.1 hspecn.2.1
  rw [hspec1.2.2, hspecn.2.2] at hT
  have hFF : findFirst ((save_extracted_text src yr dt date (t1 :: rest)).length + 1)
      (save_extracted_text src yr dt date (t1 :: rest)) =
      some (headerChars src yr dt date (t1 :: rest).length ++ ['\n'], 1,
        (t1 :: rest).length,
        '\n' :: t1 ++ '\n' :: pageBlocks (t1 :: rest).length (1 + 1) rest) := by
    conv_lhs => rw [hcontent]
    exact findFirst_split _ hns hT _ (by simp only [List.length_append]; omega)
  have hrest : rest.length <
      ('\n' :: t1 ++ '\n' :: pageBlocks (t1 :: rest).length (1 + 1) rest).length + 1 := by
    have h1 := pageBlocks_length_le (t1 :: rest).length rest (1 + 1)
    simp only [List.length_cons, List.length_append] at h1 ⊢
    omega
  have hpr := pagesRec_blocks (t1 :: rest).length rest
    (('\n' :: t1 ++ '\n' :: pageBlocks (t1 :: rest).length (1 + 1) rest).length + 1)
    1 t1 hnd1 hndr hrest
  simp only [parse_text_file]
  rw [hFF]
  exact congrArg (fun L =>
    (extract_metadata_from_header (save_extracted_text src yr dt date (t1 :: rest)),
     L.map (fun q =>
       ({ page_number := q.1, total_pages := q.2.1, text := q.2.2 } : PageData)))) hpr

/-- C10: for any non-empty list of delimiter-free page texts (and
delimiter-free header fields), writing the document with stage 1's
save_extracted_text and parsing with stage 2's parse_text_file yields
exactly one page entry per input page, in order, with page_number j + 1
for the j-th page, total_pages the number of pages, and text the original
page text wrapped in the writer's added newlines (one leading; one or two
trailing); the header block appears in no page's text. -/
theorem save_parse_roundtrip (src yr dt date : List Char) (ts : List (List Char))
    (hsrc : '=' ∉ src) (hyr : '=' ∉ yr) (hdt : '=' ∉ dt) (hdate : '=' ∉ date)
    (hne : ts ≠ []) (hnd : ∀ t ∈ ts, noDelim t) :
    ((parse_text_file (save_extracted_text src yr dt date ts)).2 =
      (pageTriples ts.length 1 ts).map
        (fun q => { page_number := q.1, total_pages := q.2.1, text := q.2.2 })) ∧
    (pageTriples ts.length 1 ts).length = ts.length ∧
    ∀ j (hj : j < ts.length), ∃ e,
      (pageTriples ts.length 1 ts).get? j = some (1 + j, ts.length, e) ∧
      (e = '\n' :: ts.get ⟨j, hj⟩ ++ ['\n'] ∨
       e = '\n' :: ts.get ⟨j, hj⟩ ++ ['\n', '\n']) := by
  cases ts with
  | nil => exact absurd rfl hne
  | cons t1 rest =>
    refine ⟨?_, pageTriples_length (t1 :: rest).length (t1 :: rest) 1,
      fun j hj => pageTriples_get (t1 :: rest).length (t1 :: rest) 1 j hj⟩
    rw [parse_save_eq src yr dt date t1 rest hsrc hyr hdt hdate
      (hnd t1 (List.mem_cons_self _ _)) (fun u hu => hnd u (List.mem_cons_of_mem _ hu))]

/-- Witness for C10 on a two-page document with short delimiter-free
texts and fields. -/
theorem save_parse_roundtrip_witness :
    ('=' ∉ "report.pdf".toList) ∧ c10texts ≠ [] ∧
    (∀ t ∈ c10texts, noDelimB t = true) ∧
    ((parse_text_file (save_extracted_text ("report.pdf".toList) ("2023".toList)
        ("Sustainability Report".toList) ("2026-10-12".toList) c10texts)).2 =
      (pageTriples c10texts.length 1 c10texts).map
        (fun q => { page_number := q.1, total_pages := q.2.1, text := q.2.2 })) := by
  have hall : ∀ t ∈ c10texts, noDelimB t = true := by decide
  refine ⟨by decide, by decide, hall, ?_⟩
  exact (save_parse_roundtrip ("report.pdf".toList) ("2023".toList)
    ("Sustainability Report".toList) ("2026-10-12".toList) c10texts
    (by decide) (by decide) (by decide) (by decide) (by decide)
    (fun t ht => noDelimB_imp (hall t ht))).1

/-- Witness for C7 on a page matching nothing. -/
theorem zero_match_run_witness :
    pageNoMatches c7page ∧
    create_summary_statistics (processOne emptyState c1md [c7page]) = ⟨0, 0, 0, 0⟩ := by
  have hp : pageNoMatches c7page := by
    unfold pageNoMatches
    refine ⟨?_, ?_, ?_, ?_⟩ <;> decide
  refine ⟨hp, ?_⟩
  exact (zero_match_run c1md [c7page]
    (by intro pg hpg; rw [List.mem_singleton.mp hpg]; exact hp)).2.2.2.2

end RL



